import Mathlib

/-!
# Pipelines: a shallow embedding of the stage runtime

Conduits (Go channels) are modelled by their contents.  An input conduit is the
finite sequence of values its producer delivers before closing it; an output
conduit records the values sent on it so far (its consumer drains it, so a send
is only ever delayed, never refused), its capacity and whether it is closed.
Sending on a closed conduit, closing a closed conduit and creating a conduit of
negative capacity are run-time panics in Go and are outcomes of their own here.

A cancellation token is an oracle: every `select` that has a `ctx.Done()` case
asks it, by the running count of such selects, whether that case is taken.
-/

namespace Pipelines

/-! ## Definitions -/

/-- Error values: the sentinels of `nodes/errors.go` and `pkg/utils/fan_in.go`, the two
context errors, an arbitrary error made by user code, and `fmt.Errorf("%s: %w", pre, inner)`. -/
inductive Err where
  | ErrAccessRunningNode
  | ErrNodeRunning
  | ErrOnlyOneInput
  | ErrHasNoOutput
  | ErrHasNoInput
  | ErrZipNodeNoInput
  | ErrZipNodeClosedInput
  | ErrEmptyInChan
  | ErrNegativeBufSize
  | Canceled
  | DeadlineExceeded
  | user (msg : String)
  | wrapf (pre : String) (inner : Err)
  deriving DecidableEq, Repr

/-- The message of an error (`err.Error()`). -/
def Err.Error : Err → String
  | .ErrAccessRunningNode => "access attempt to running node"
  | .ErrNodeRunning => "node is already running"
  | .ErrOnlyOneInput => "worker pool requires exactly one input"
  | .ErrHasNoOutput => "this node has not outputs"
  | .ErrHasNoInput => "this node has not inputs"
  | .ErrZipNodeNoInput => "zipNode: no input channels"
  | .ErrZipNodeClosedInput => "zipNode: one of the input channels was closed"
  | .ErrEmptyInChan => "empty in chan"
  | .ErrNegativeBufSize => "negative buffer size"
  | .Canceled => "context canceled"
  | .DeadlineExceeded => "context deadline exceeded"
  | .user msg => msg
  | .wrapf pre inner => pre ++ ": " ++ inner.Error

/-- The error wrapped by `%w` (`errors.Unwrap`); `none` for an error that wraps nothing. -/
def Err.Unwrap : Err → Option Err
  | .wrapf _ inner => some inner
  | _ => none

/-- How a call ends: it returns an error value (`none` is Go's `nil`), or it panics. -/
inductive Exit where
  | ret (e : Option Err)
  | panic
  deriving DecidableEq, Repr

/-- The `Config` of `nodes/config.go`. -/
structure Config where
  InBuffer : Int
  Buffer : Int
  Workers : Int
  deriving DecidableEq, Repr

/-- Go `DefaultConfig()`: InBuffer = 0, Buffer = 10, Workers = 10. -/
def DefaultConfig : Config :=
  { InBuffer := 0, Buffer := 10, Workers := 10 }

/-- An output conduit: capacity, the values sent on it so far (oldest first), closed or not. -/
structure Chan (β : Type) where
  cap : Int
  buf : List β
  closed : Bool
  deriving DecidableEq, Repr

/-- Go `make(chan T, size)`: a fresh open conduit; `none` is the panic for a negative size. -/
def makeChan {β : Type} (size : Int) : Option (Chan β) :=
  if size < 0 then none else some { cap := size, buf := [], closed := false }

/-- A cancellation token: `done k` tells whether the `ctx.Done()` case is the one taken at the
`k`-th select that offers it, and `err` is `ctx.Err()`. -/
structure Ctx where
  done : Nat → Bool
  err : Err

/-- A token that never fires. -/
def Ctx.background : Ctx :=
  { done := fun _ => false, err := Err.Canceled }

/-- Go `utils.Broadcast`: send `data` on each output in list order; each send is a select against
`ctx.Done()`.  The tick counts the selects made. -/
def Broadcast {β : Type} (ctx : Ctx) :
    Nat → List (Chan β) → β → Exit × Nat × List (Chan β)
  | t, [], _ => (Exit.ret none, t, [])
  | t, out :: rest, data =>
    if ctx.done t then (Exit.ret (some ctx.err), t + 1, out :: rest)
    else if out.closed then (Exit.panic, t + 1, out :: rest)
    else
      match Broadcast ctx (t + 1) rest data with
      | (r, t', rest') => (r, t', { out with buf := out.buf ++ [data] } :: rest')

/-- Go `utils.CloseChannels`: close every conduit in order; closing a closed one panics, leaving
the later ones untouched. -/
def CloseChannels {β : Type} : List (Chan β) → Bool × List (Chan β)
  | [] => (true, [])
  | ch :: rest =>
    if ch.closed then (false, ch :: rest)
    else
      match CloseChannels rest with
      | (ok, rest') => (ok, { ch with closed := true } :: rest')

/-! ### Merge primitive (`pkg/utils/fan_in.go`)

`FanIn` starts one forwarding task per input and one closing task; they run concurrently, so
the merge is a transition system and a schedule (a list of actions) picks who moves next. -/

/-- Where a forwarding task stands: at its outer select about to receive, at its inner select
about to send `data`, or returned (its deferred `wg.Done()` has run). -/
inductive Fwd (α : Type) where
  | recv
  | send (data : α)
  | done
  deriving DecidableEq, Repr

/-- Whether the forwarding task has returned. -/
def Fwd.isDone {α : Type} : Fwd α → Bool
  | Fwd.done => true
  | _ => false

/-- One input conduit (what it still delivers before it is closed) and its forwarding task. -/
structure Lane (α : Type) where
  src : List α
  pc : Fwd α
  deriving DecidableEq, Repr

/-- A scheduling choice: forwarder `i` performs the conduit operation of its current select;
forwarder `i` takes the `ctx.Done()` case of its current select; the closing task passes
`wg.Wait()` and closes the merged conduit. -/
inductive FanInAction where
  | forward (i : Nat)
  | cancel (i : Nat)
  | close
  deriving DecidableEq, Repr

/-- The running merge: the lanes, the WaitGroup counter, the capacity of the merged conduit,
the values sent on it so far (each tagged with the index of the input it came from; the conduit
carries the values alone), how many times it has been closed, and whether the closing task is
still waiting. -/
structure FanInState (α : Type) where
  lanes : List (Lane α)
  wg : Nat
  cap : Int
  sent : List (Nat × α)
  closes : Nat
  closerWaiting : Bool
  deriving DecidableEq, Repr

/-- What the merged conduit has carried so far. -/
def FanInState.delivered {α : Type} (s : FanInState α) : List α :=
  s.sent.map Prod.snd

/-- Whether the merged conduit is closed. -/
def FanInState.closed {α : Type} (s : FanInState α) : Bool :=
  decide (0 < s.closes)

/-- One step of the forwarding loop of lane `i`: a receive hands over the next value, or finds
the source closed and returns; a send puts the held value on the merged conduit. -/
def Lane.forward {α : Type} (i : Nat) (l : Lane α) (sent : List (Nat × α)) :
    Option (Lane α × List (Nat × α)) :=
  match l.pc with
  | Fwd.recv =>
    match l.src with
    | data :: rest => some ({ src := rest, pc := Fwd.send data }, sent)
    | [] => some ({ src := [], pc := Fwd.done }, sent)
  | Fwd.send data => some ({ src := l.src, pc := Fwd.recv }, sent ++ [(i, data)])
  | Fwd.done => none

/-- One scheduled step of the merge; `none` when the chosen task cannot move. -/
def FanInState.step {α : Type} (s : FanInState α) : FanInAction → Option (FanInState α)
  | FanInAction.forward i =>
    match s.lanes[i]? with
    | none => none
    | some l =>
      match l.forward i s.sent with
      | none => none
      | some (l', sent') =>
        some { s with lanes := s.lanes.set i l', sent := sent',
                      wg := if l'.pc.isDone then s.wg - 1 else s.wg }
  | FanInAction.cancel i =>
    match s.lanes[i]? with
    | none => none
    | some l =>
      if l.pc.isDone then none
      else some { s with lanes := s.lanes.set i { l with pc := Fwd.done }, wg := s.wg - 1 }
  | FanInAction.close =>
    if s.wg = 0 ∧ s.closerWaiting = true then
      some { s with closes := s.closes + 1, closerWaiting := false }
    else none

/-- Run a schedule in which every chosen task can move; `none` otherwise. -/
def FanInState.run {α : Type} (s : FanInState α) : List FanInAction → Option (FanInState α)
  | [] => some s
  | a :: acts =>
    match s.step a with
    | none => none
    | some s' => s'.run acts

/-- Run any schedule: a choice that cannot move is skipped. -/
def FanInState.exec {α : Type} (s : FanInState α) : List FanInAction → FanInState α
  | [] => s
  | a :: acts =>
    match s.step a with
    | none => s.exec acts
    | some s' => s'.exec acts

/-- Go `utils.FanIn`: the returned pair `(merged conduit, error)`.  On success the merged conduit
comes with its running tasks: one forwarder per input, all about to receive, the WaitGroup at
`len(in)`, and the closing task waiting. -/
def FanIn {α : Type} (ins : List (List α)) (buf : Int) : Option (FanInState α) × Option Err :=
  if ins.length = 0 then (none, some Err.ErrEmptyInChan)
  else if buf < 0 then (none, some Err.ErrNegativeBufSize)
  else
    (some { lanes := ins.map (fun ch => { src := ch, pc := Fwd.recv }),
            wg := ins.length, cap := buf, sent := [], closes := 0, closerWaiting := true },
     none)

/-- The number of forwarding tasks a call of `FanIn` has started. -/
def FanIn.tasks {α : Type} (r : Option (FanInState α) × Option Err) : Nat :=
  match r.1 with
  | none => 0
  | some s => s.lanes.length

/-- The value a forwarding task holds between its receive and its send. -/
def Fwd.held {α : Type} : Fwd α → List α
  | Fwd.send data => [data]
  | _ => []

/-- Whether the action is a forwarder taking its `ctx.Done()` case. -/
def FanInAction.isCancel : FanInAction → Bool
  | FanInAction.cancel _ => true
  | _ => false

/-- The values the merged conduit has carried from input `i`, in the order it carried them. -/
def FanInState.fromSource {α : Type} (s : FanInState α) (i : Nat) : List α :=
  (s.sent.filter (fun p => p.1 == i)).map Prod.snd

/-- 1 for a forwarding task that has not returned, 0 for one that has. -/
def Lane.live {α : Type} (l : Lane α) : Nat :=
  if l.pc.isDone then 0 else 1

/-- The steps a lane still takes when the token never fires: a receive and a send for each
value left, a last receive that finds the source closed, and the send of a held value. -/
def Lane.cost {α : Type} (l : Lane α) : Nat :=
  match l.pc with
  | Fwd.recv => 2 * l.src.length + 1
  | Fwd.send _ => 2 * l.src.length + 2
  | Fwd.done => 0

/-- The steps the whole merge still takes when the token never fires. -/
def FanInState.cost {α : Type} (s : FanInState α) : Nat :=
  (s.lanes.map Lane.cost).sum + (if s.closerWaiting then 1 else 0)

/-- What holds of every state of a merge of `ins` reached without a cancellation: each input is
split into what was delivered from it, what its forwarder holds and what is left in it; the
WaitGroup counts the forwarders still running; a returned forwarder left its source empty; the
merged conduit is closed at most once, by the closing task, after the counter reached zero. -/
structure FanInInv {α : Type} (ins : List (List α)) (s : FanInState α) : Prop where
  len : s.lanes.length = ins.length
  src : ∀ (i : Nat) (l : Lane α), s.lanes[i]? = some l →
    ins[i]? = some (s.fromSource i ++ l.pc.held ++ l.src)
  tag : ∀ p ∈ s.sent, p.1 < ins.length
  wg : s.wg = (s.lanes.map Lane.live).sum
  fin : ∀ (i : Nat) (l : Lane α), s.lanes[i]? = some l → l.pc.isDone = true → l.src = []
  cl : s.closes + (if s.closerWaiting then 1 else 0) = 1
  clwg : s.closerWaiting = false → s.wg = 0

/-! ### Basic transform stage (`nodes/node.go`) -/

/-- The `node` struct: `ins` holds, for each attached input conduit, what it still delivers. -/
structure node (α β : Type) where
  id : Nat
  ins : List (List α)
  out : List (Chan β)
  process : α → Except Err β
  isRunning : Bool
  config : Config

/-- Go `node.ID`. -/
def node.ID {α β : Type} (n : node α β) : String :=
  "node-" ++ toString n.id

/-- Go `node.SetInput`. -/
def node.SetInput {α β : Type} (n : node α β) (chs : List (List α)) :
    Option Err × node α β :=
  if n.isRunning then (some Err.ErrAccessRunningNode, n)
  else (none, { n with ins := n.ins ++ chs })

/-- Go `node.Output`: the returned pair `(conduit, error)` and the stage afterwards; `none` is the
panic of `make` for a negative `config.Buffer`. -/
def node.Output {α β : Type} (n : node α β) :
    Option (Option (Chan β) × Option Err × node α β) :=
  if n.isRunning then some (none, some Err.ErrAccessRunningNode, n)
  else
    match makeChan n.config.Buffer with
    | none => none
    | some out => some (some out, none, { n with out := n.out ++ [out] })

/-- The `for`/`select` of `node.Run` over what the merged conduit delivers: `merged` are the
values still to come and `closed` tells whether the merged conduit is closed after them.
`none` when the select waits for ever (nothing more comes and the token never fires). -/
def node.loop {α β : Type} (n : node α β) (ctx : Ctx) (closed : Bool) :
    Nat → List α → List (Chan β) → Option (Exit × List (Chan β))
  | t, [], outs =>
    if ctx.done t then some (Exit.ret (some ctx.err), outs)
    else if closed then some (Exit.ret none, outs)
    else none
  | t, data :: merged, outs =>
    if ctx.done t then some (Exit.ret (some ctx.err), outs)
    else
      match n.process data with
      | Except.error err => some (Exit.ret (some (Err.wrapf n.ID err)), outs)
      | Except.ok result =>
        match Broadcast ctx (t + 1) outs result with
        | (Exit.ret none, t', outs') => node.loop n ctx closed t' merged outs'
        | (r, _, outs') => some (r, outs')

/-- Go `node.Run`; `acts` is the schedule of the merge's tasks.  The two deferred calls run on
every return after they were registered: first `isRunning.Swap(false)`, then
`CloseChannels(n.out)`, whose panic (a conduit closed twice) replaces the return value. -/
def node.Run {α β : Type} (n : node α β) (ctx : Ctx) (acts : List FanInAction) :
    Option (Exit × node α β) :=
  if n.isRunning then some (Exit.ret (some Err.ErrNodeRunning), n)
  else
    match FanIn n.ins n.config.InBuffer with
    | (_, some err) => some (Exit.ret (some err), n)
    | (none, none) => none
    | (some s0, none) =>
      match node.loop n ctx (s0.exec acts).closed 0 (s0.exec acts).delivered n.out with
      | none => none
      | some (r, outs) =>
        match CloseChannels outs with
        | (ok, outs') =>
          some (if ok then r else Exit.panic,
                { n with ins := (s0.exec acts).lanes.map Lane.src, out := outs',
                         isRunning := false })

/-! ### Aggregator stage (`nodes/aggregator.go`) -/

/-- The `aggregator` struct. -/
structure aggregator (α : Type) where
  id : Nat
  ins : List (List α)
  sink : α → Option Err
  config : Config

/-- Go `aggregator.ID`. -/
def aggregator.ID {α : Type} (n : aggregator α) : String :=
  "result-aggregator-node-" ++ toString n.id

/-- Go `aggregator.SetInput`. -/
def aggregator.SetInput {α : Type} (n : aggregator α) (chs : List (List α)) :
    Option Err × aggregator α :=
  (none, { n with ins := n.ins ++ chs })

/-- Go `aggregator.Output`: no conduit, `ErrHasNoOutput`. -/
def aggregator.Output {α β : Type} (n : aggregator α) :
    Option (Chan β) × Option Err × aggregator α :=
  (none, some Err.ErrHasNoOutput, n)

/-- The `for`/`select` of `aggregator.Run`, as `node.loop`. -/
def aggregator.loop {α : Type} (n : aggregator α) (ctx : Ctx) (closed : Bool) :
    Nat → List α → Option Exit
  | t, [] =>
    if ctx.done t then some (Exit.ret (some ctx.err))
    else if closed then some (Exit.ret none)
    else none
  | t, data :: merged =>
    if ctx.done t then some (Exit.ret (some ctx.err))
    else
      match n.sink data with
      | some err => some (Exit.ret (some (Err.wrapf n.ID err)))
      | none => aggregator.loop n ctx closed (t + 1) merged

/-- Go `aggregator.Run`. -/
def aggregator.Run {α : Type} (n : aggregator α) (ctx : Ctx) (acts : List FanInAction) :
    Option (Exit × aggregator α) :=
  match FanIn n.ins n.config.InBuffer with
  | (_, some err) => some (Exit.ret (some err), n)
  | (none, none) => none
  | (some s0, none) =>
    match aggregator.loop n ctx (s0.exec acts).closed 0 (s0.exec acts).delivered with
    | none => none
    | some r => some (r, { n with ins := (s0.exec acts).lanes.map Lane.src })

/-! ### Generator stage (`nodes/generator.go`) -/

/-- The `generator` struct; the factory yields the finite content of its conduit, or fails. -/
structure generator (β : Type) where
  id : Nat
  out : List (Chan β)
  generate : Ctx → Except Err (List β)

/-- Go `generator.ID`. -/
def generator.ID {β : Type} (n : generator β) : String :=
  "generator-node-" ++ toString n.id

/-- Go `generator.SetInput`: always `ErrHasNoInput`. -/
def generator.SetInput {β γ : Type} (n : generator β) (_chs : List (List γ)) :
    Option Err × generator β :=
  (some Err.ErrHasNoInput, n)

/-- Go `generator.Output`: a conduit of capacity 1, appended to the outputs. -/
def generator.Output {β : Type} (n : generator β) :
    Option (Option (Chan β) × Option Err × generator β) :=
  match makeChan 1 with
  | none => none
  | some out => some (some out, none, { n with out := n.out ++ [out] })

/-- The `for data := range ch` of `generator.Run`. -/
def generator.loop {β : Type} (ctx : Ctx) :
    Nat → List β → List (Chan β) → Exit × List (Chan β)
  | _, [], outs => (Exit.ret none, outs)
  | t, data :: ch, outs =>
    match Broadcast ctx t outs data with
    | (Exit.ret none, t', outs') => generator.loop ctx t' ch outs'
    | (r, _, outs') => (r, outs')

/-- Go `generator.Run`: the deferred `CloseChannels(n.out)` runs on every return. -/
def generator.Run {β : Type} (n : generator β) (ctx : Ctx) : Exit × generator β :=
  match (match n.generate ctx with
         | Except.error err => (Exit.ret (some (Err.wrapf n.ID err)), n.out)
         | Except.ok ch => generator.loop ctx 0 ch n.out) with
  | (r, outs) =>
    match CloseChannels outs with
    | (ok, outs') => (if ok then r else Exit.panic, { n with out := outs' })

/-! ### Zip stage (`nodes/zip.go`) -/

/-- The `zip` struct: `ins` holds, for each attached input conduit, what it still delivers. -/
structure zip (α β : Type) where
  id : Nat
  ins : List (List α)
  out : List (Chan β)
  process : List α → Except Err β
  config : Config

/-- Go `zip.ID`. -/
def zip.ID {α β : Type} (n : zip α β) : String :=
  "zip-node-" ++ toString n.id

/-- Go `zip.SetInput`: append the conduits. -/
def zip.SetInput {α β : Type} (n : zip α β) (chs : List (List α)) : Option Err × zip α β :=
  (none, { n with ins := n.ins ++ chs })

/-- Go `zip.Output`: make a conduit of capacity `config.Buffer` and append it to the outputs. -/
def zip.Output {α β : Type} (n : zip α β) :
    Option (Option (Chan β) × Option Err × zip α β) :=
  match makeChan n.config.Buffer with
  | none => none
  | some out => some (some out, none, { n with out := n.out ++ [out] })

/-- The inner `for i, ch := range n.in` of `zip.Run`: one value from every input, in order.
Returns the values read, or the error that ended the pass, with the tick and what is left in
the inputs. -/
def zip.readInputs {α : Type} (ctx : Ctx) :
    Nat → List (List α) → Except Err (List α) × Nat × List (List α)
  | t, [] => (Except.ok [], t, [])
  | t, ch :: chs =>
    if ctx.done t then (Except.error ctx.err, t + 1, ch :: chs)
    else
      match ch with
      | [] => (Except.error Err.ErrZipNodeClosedInput, t + 1, [] :: chs)
      | data :: ch' =>
        match zip.readInputs ctx (t + 1) chs with
        | (Except.ok row, t', chs') => (Except.ok (data :: row), t', ch' :: chs')
        | (Except.error e, t', chs') => (Except.error e, t', ch' :: chs')

/-- The outer `for` of `zip.Run`; `none` when the fuel runs out before the loop exits. -/
def zip.loop {α β : Type} (n : zip α β) (ctx : Ctx) :
    Nat → Nat → List (List α) → List (Chan β) →
      Option (Exit × List (List α) × List (Chan β))
  | 0, _, _, _ => none
  | fuel + 1, t, chs, outs =>
    if ctx.done t then some (Exit.ret (some ctx.err), chs, outs)
    else
      match zip.readInputs ctx (t + 1) chs with
      | (Except.error e, _, chs') => some (Exit.ret (some e), chs', outs)
      | (Except.ok inputs, t', chs') =>
        match n.process inputs with
        | Except.error err => some (Exit.ret (some (Err.wrapf n.ID err)), chs', outs)
        | Except.ok res =>
          match Broadcast ctx t' outs res with
          | (Exit.ret none, t'', outs') => zip.loop n ctx fuel t'' chs' outs'
          | (r, _, outs') => some (r, chs', outs')

/-- Go `zip.Run`. -/
def zip.Run {α β : Type} (n : zip α β) (ctx : Ctx) (fuel : Nat) : Option (Exit × zip α β) :=
  if n.ins.length = 0 then some (Exit.ret (some Err.ErrZipNodeNoInput), n)
  else
    match zip.loop n ctx fuel 0 n.ins n.out with
    | none => none
    | some (r, chs, outs) => some (r, { n with ins := chs, out := outs })

/-! ### Worker pool stage (`nodes/worker_pool.go`) -/

/-- The `workerPool` struct: a single input and a single output field, `none` while unset. -/
structure workerPool (α β : Type) where
  id : Nat
  ins : Option (List α)
  out : Option (Chan β)
  process : α → Except Err β
  config : Config

/-- Go `NewWorkerPool`: the supplied configuration is used only if its `Workers` is positive. -/
def NewWorkerPool {α β : Type} (id : Nat) (proc : α → Except Err β) (cfg : List Config) :
    workerPool α β :=
  { id := id, ins := none, out := none, process := proc,
    config := match cfg with
      | c :: _ => if c.Workers > 0 then c else DefaultConfig
      | [] => DefaultConfig }

/-- Go `workerPool.ID`. -/
def workerPool.ID {α β : Type} (n : workerPool α β) : String :=
  "worker-pool-node-" ++ toString n.id

/-- Go `workerPool.SetInput`: exactly one conduit, which becomes the input. -/
def workerPool.SetInput {α β : Type} (n : workerPool α β) (chs : List (List α)) :
    Option Err × workerPool α β :=
  match chs with
  | [ch] => (none, { n with ins := some ch })
  | _ => (some Err.ErrOnlyOneInput, n)

/-- Go `workerPool.Output`: make a conduit of capacity `config.Workers` and store it as the
output, whatever was stored before. -/
def workerPool.Output {α β : Type} (n : workerPool α β) :
    Option (Option (Chan β) × Option Err × workerPool α β) :=
  match makeChan n.config.Workers with
  | none => none
  | some out => some (some out, none, { n with out := some out })

/-- Where a worker task stands in `runWorker`: at the outer select about to receive; holding
`data` and calling `process`; at the inner select about to send `result`; about to report
`err` on the error conduit; returned (its deferred `wg.Done()` has run). -/
inductive Worker (α β : Type) where
  | recv
  | processing (data : α)
  | sending (result : β)
  | reporting (err : Err)
  | stopped
  deriving DecidableEq, Repr

/-- A scheduling choice for a running pool: worker `i` takes the conduit operation (or the
plain statement) it stands at; worker `i` takes the `ctx.Done()` case of its select; the
waiting task passes `wg.Wait()` and closes `done`; `Run` takes the error, the cancellation or
the `done` case of its select and returns; the token fires, with the error it then reports
(`context.Canceled` or `context.DeadlineExceeded`). -/
inductive PoolAction where
  | work (i : Nat)
  | workCancel (i : Nat)
  | wait
  | retErr
  | retCtx
  | retDone
  | fire (err : Err)
  deriving DecidableEq, Repr

/-- A running pool: what the input conduit still delivers, the workers, the buffered error
conduit and its capacity, the WaitGroup counter, whether `done` is closed, the output conduit,
the token (fired or not, and `ctx.Err()` once it has), what `Run` has returned (`none` while
it is at its select), and whether a task has panicked by sending on the closed output. -/
structure PoolState (α β : Type) where
  input : List α
  workers : List (Worker α β)
  errChan : List Err
  errCap : Nat
  wg : Nat
  doneClosed : Bool
  out : Chan β
  ctxDone : Bool
  ctxErr : Err
  result : Option (Option Err)
  panicked : Bool
  deriving DecidableEq, Repr

/-- The state of `workerPool.Run` when it reaches its select: the deferred close registered,
`config.Workers` workers started, the waiting task started.  `none` when the input or output
is unset or `config.Workers` is negative (the run then panics or never ends). -/
def workerPool.start {α β : Type} (n : workerPool α β) : Option (PoolState α β) :=
  match n.ins, n.out with
  | some input, some out =>
    if n.config.Workers < 0 then none
    else
      some { input := input, workers := List.replicate n.config.Workers.toNat Worker.recv,
             errChan := [], errCap := n.config.Workers.toNat, wg := n.config.Workers.toNat,
             doneClosed := false, out := out, ctxDone := false, ctxErr := Err.Canceled,
             result := none, panicked := false }
  | _, _ => none

/-- The return of `workerPool.Run` with value `r`: the deferred `close(n.out)` runs. -/
def PoolState.ret {α β : Type} (s : PoolState α β) (r : Option Err) : PoolState α β :=
  if s.out.closed then { s with result := some r, panicked := true }
  else { s with result := some r, out := { s.out with closed := true } }

/-- One scheduled step of a running pool; `none` when the chosen task cannot move. -/
def PoolState.step {α β : Type} (n : workerPool α β) (s : PoolState α β) :
    PoolAction → Option (PoolState α β)
  | PoolAction.work i =>
    match s.workers[i]? with
    | none => none
    | some Worker.recv =>
      match s.input with
      | data :: rest =>
        some { s with input := rest, workers := s.workers.set i (Worker.processing data) }
      | [] => some { s with workers := s.workers.set i Worker.stopped, wg := s.wg - 1 }
    | some (Worker.processing data) =>
      match n.process data with
      | Except.error err => some { s with workers := s.workers.set i (Worker.reporting err) }
      | Except.ok result => some { s with workers := s.workers.set i (Worker.sending result) }
    | some (Worker.reporting err) =>
      some { s with workers := s.workers.set i Worker.stopped, wg := s.wg - 1,
                    errChan := if s.errChan.length < s.errCap then s.errChan ++ [err]
                               else s.errChan }
    | some (Worker.sending result) =>
      if s.out.closed then
        some { s with workers := s.workers.set i Worker.stopped, panicked := true }
      else
        some { s with workers := s.workers.set i Worker.recv,
                      out := { s.out with buf := s.out.buf ++ [result] } }
    | some Worker.stopped => none
  | PoolAction.workCancel i =>
    if s.ctxDone then
      match s.workers[i]? with
      | some Worker.recv =>
        some { s with workers := s.workers.set i Worker.stopped, wg := s.wg - 1 }
      | some (Worker.sending _) =>
        some { s with workers := s.workers.set i Worker.stopped, wg := s.wg - 1 }
      | _ => none
    else none
  | PoolAction.wait =>
    if s.wg = 0 ∧ s.doneClosed = false then some { s with doneClosed := true } else none
  | PoolAction.retErr =>
    match s.result, s.errChan with
    | none, err :: rest => some ({ s with errChan := rest }.ret (some (Err.wrapf n.ID err)))
    | _, _ => none
  | PoolAction.retCtx =>
    match s.result with
    | none => if s.ctxDone then some (s.ret (some s.ctxErr)) else none
    | some _ => none
  | PoolAction.retDone =>
    match s.result with
    | none => if s.doneClosed then some (s.ret none) else none
    | some _ => none
  | PoolAction.fire err =>
    if s.ctxDone then none else some { s with ctxDone := true, ctxErr := err }

/-- Run a schedule of a pool: a choice that cannot move is skipped. -/
def PoolState.exec {α β : Type} (n : workerPool α β) (s : PoolState α β) :
    List PoolAction → PoolState α β
  | [] => s
  | a :: acts =>
    match s.step n a with
    | none => s.exec n acts
    | some s' => s'.exec n acts

/-- A pool run under a schedule, from the start of `Run`. -/
def workerPool.runSchedule {α β : Type} (n : workerPool α β) (acts : List PoolAction) :
    Option (PoolState α β) :=
  (workerPool.start n).map (fun s0 => s0.exec n acts)

/-- A pool of `workers` workers on the given input whose `process` fails on 1 and is the
identity elsewhere, with its output conduit created. -/
def poolFailingOn (workers : Nat) (input : List Nat) : workerPool Nat Nat :=
  { id := 1, ins := some input, out := some { cap := workers, buf := [], closed := false },
    process := fun x => if x = 1 then Except.error (Err.user "boom") else Except.ok x,
    config := { InBuffer := 0, Buffer := 10, Workers := workers } }

/-- Two workers on the input 1, 2. -/
def poolFailingOnOne : workerPool Nat Nat :=
  poolFailingOn 2 [1, 2]

/-- Two workers on the input 1, 2 whose `process` fails on every value, with the error
"first" on 1 and "second" on anything else. -/
def poolAlwaysFailing : workerPool Nat Nat :=
  { id := 1, ins := some [1, 2], out := some { cap := 2, buf := [], closed := false },
    process := fun x => Except.error (Err.user (if x = 1 then "first" else "second")),
    config := { InBuffer := 0, Buffer := 10, Workers := 2 } }

/-- What a worker of pool `n` holds comes from the input `input`: a value it processes was
received from it, and an error it reports was returned by `process` on one of its values. -/
def Worker.fromInput {α β : Type} (n : workerPool α β) (input : List α) : Worker α β → Prop
  | Worker.processing data => data ∈ input
  | Worker.reporting err => ∃ x ∈ input, n.process x = Except.error err
  | _ => True

/-- What holds of every state of a run of pool `n` on the input `input`: values and errors in
flight come from the input, and a returned error is the token's error or the wrapped error of
a `process` call. -/
structure PoolInv {α β : Type} (n : workerPool α β) (input : List α) (s : PoolState α β) :
    Prop where
  inp : ∀ x ∈ s.input, x ∈ input
  wk : ∀ w ∈ s.workers, Worker.fromInput n input w
  ec : ∀ e ∈ s.errChan, ∃ x ∈ input, n.process x = Except.error e
  res : ∀ r, s.result = some (some r) →
    (r = s.ctxErr ∧ s.ctxDone = true)
    ∨ ∃ e x, x ∈ input ∧ n.process x = Except.error e ∧ r = Err.wrapf n.ID e

/-! ### Stage contract and wiring (`node.go`, `connect.go`) -/

/-- A value of the `Node` interface: one of the five stage kinds.  A generator ignores the
input type and an aggregator the output type (`any` in the source). -/
inductive Node (α β : Type) where
  | basic (n : node α β)
  | pool (n : workerPool α β)
  | gen (n : generator β)
  | agg (n : aggregator α)
  | zipper (n : zip α β)

/-- Go `Node.SetInput`, dispatched on the stage kind. -/
def Node.SetInput {α β : Type} : Node α β → List (List α) → Option Err × Node α β
  | Node.basic n, chs => ((n.SetInput chs).1, Node.basic (n.SetInput chs).2)
  | Node.pool n, chs => ((n.SetInput chs).1, Node.pool (n.SetInput chs).2)
  | Node.gen n, chs => ((n.SetInput chs).1, Node.gen (n.SetInput chs).2)
  | Node.agg n, chs => ((n.SetInput chs).1, Node.agg (n.SetInput chs).2)
  | Node.zipper n, chs => ((n.SetInput chs).1, Node.zipper (n.SetInput chs).2)

/-- Go `Node.Output`, dispatched on the stage kind; `none` is a panic. -/
def Node.Output {α β : Type} :
    Node α β → Option (Option (Chan β) × Option Err × Node α β)
  | Node.basic n => n.Output.map (fun r => (r.1, r.2.1, Node.basic r.2.2))
  | Node.pool n => n.Output.map (fun r => (r.1, r.2.1, Node.pool r.2.2))
  | Node.gen n => n.Output.map (fun r => (r.1, r.2.1, Node.gen r.2.2))
  | Node.agg n => some (none, some Err.ErrHasNoOutput, Node.agg n)
  | Node.zipper n => n.Output.map (fun r => (r.1, r.2.1, Node.zipper r.2.2))

/-- A conduit seen from its receiving end: what it holds for the receiver. -/
def Chan.receiveEnd {β : Type} (c : Chan β) : List β :=
  c.buf

/-- Go `Connect`: the new output of `src` becomes an input of the target (`to` in the
source); `none` is a panic. -/
def Connect {α μ γ : Type} (src : Node α μ) (target : Node μ γ) :
    Option (Option Err × Node α μ × Node μ γ) :=
  match src.Output with
  | none => none
  | some (_, some err, src') => some (some err, src', target)
  | some (none, none, _) => none
  | some (some out, none, src') =>
    some ((target.SetInput [out.receiveEnd]).1, src', (target.SetInput [out.receiveEnd]).2)

/-- The loop of `ConnectFromMany` over the sources: one new output from each, stopping at the
first error.  Returns the error, the conduits collected and the sources afterwards; `none` is
a panic (no stage kind returns a nil conduit without an error, and that case is put there). -/
def ConnectFromMany.outputs {α μ : Type} :
    List (Node α μ) → Option (Option Err × List (Chan μ) × List (Node α μ))
  | [] => some (none, [], [])
  | source :: rest =>
    match source.Output with
    | none => none
    | some (_, some err, source') => some (some err, [], source' :: rest)
    | some (none, none, _) => none
    | some (some out, none, source') =>
      match ConnectFromMany.outputs rest with
      | none => none
      | some (e, outs, rest') => some (e, out :: outs, source' :: rest')

/-- Go `ConnectFromMany`: one new output from each source, all attached to the target (`to`
in the source) in one `SetInput` call. -/
def ConnectFromMany {α μ γ : Type} (sources : List (Node α μ)) (target : Node μ γ) :
    Option (Option Err × List (Node α μ) × Node μ γ) :=
  match ConnectFromMany.outputs sources with
  | none => none
  | some (some err, _, sources') => some (some err, sources', target)
  | some (none, outs, sources') =>
    some ((target.SetInput (outs.map Chan.receiveEnd)).1, sources',
          (target.SetInput (outs.map Chan.receiveEnd)).2)

/-- The first loop of `ConnectToMany`: one call of `Output` on the source (`from` in the
source file) per target, stopping at the first error.  Returns the error, the conduits
collected and the source afterwards; `none` is a panic (a nil conduit without an error, which
no stage kind returns, is put there too). -/
def ConnectToMany.outputs {α μ : Type} :
    Nat → Node α μ → Option (Option Err × List (Chan μ) × Node α μ)
  | 0, src => some (none, [], src)
  | k + 1, src =>
    match src.Output with
    | none => none
    | some (_, some err, src') => some (some err, [], src')
    | some (none, none, _) => none
    | some (some out, none, src') =>
      match ConnectToMany.outputs k src' with
      | none => none
      | some (e, outs, src'') => some (e, out :: outs, src'')

/-- The second loop of `ConnectToMany`: target `i` gets conduit `outs[i]` through `SetInput`,
stopping at the first error.  Returns the error and the targets afterwards; `none` is the
panic of an index out of range. -/
def ConnectToMany.attach {μ γ : Type} :
    List (Node μ γ) → List (Chan μ) → Option (Option Err × List (Node μ γ))
  | [], _ => some (none, [])
  | _ :: _, [] => none
  | tgt :: tgts, out :: outs =>
    match tgt.SetInput [out.receiveEnd] with
    | (some err, tgt') => some (some err, tgt' :: tgts)
    | (none, tgt') =>
      match ConnectToMany.attach tgts outs with
      | none => none
      | some (e, tgts') => some (e, tgt' :: tgts')

/-- Go `ConnectToMany`: one new output of the source per target, each attached to its
target. -/
def ConnectToMany {α μ γ : Type} (src : Node α μ) (targets : List (Node μ γ)) :
    Option (Option Err × Node α μ × List (Node μ γ)) :=
  match ConnectToMany.outputs targets.length src with
  | none => none
  | some (some err, _, src') => some (some err, src', targets)
  | some (none, outs, src') =>
    match ConnectToMany.attach targets outs with
    | none => none
    | some (e, targets') => some (e, src', targets')

/-- The input conduits a stage holds (none for a generator, at most one for a pool). -/
def Node.inputs {α β : Type} : Node α β → List (List α)
  | Node.basic n => n.ins
  | Node.pool n => n.ins.toList
  | Node.gen _ => []
  | Node.agg n => n.ins
  | Node.zipper n => n.ins

/-- The output conduits a stage holds (none for an aggregator, at most one for a pool). -/
def Node.outputs {α β : Type} : Node α β → List (Chan β)
  | Node.basic n => n.out
  | Node.pool n => n.out.toList
  | Node.gen n => n.out
  | Node.agg _ => []
  | Node.zipper n => n.out

/-- A worker pool with the default configuration whose output was created earlier and has
carried the value 7 since. -/
def poolWithOutput : workerPool Nat Nat :=
  { id := 1, ins := none, out := some { cap := 10, buf := [7], closed := false },
    process := fun x => Except.ok x, config := DefaultConfig }

/-- The `Output` of `src` succeeds, giving a conduit and leaving the stage as `src'`. -/
def Node.outputGives {α β : Type} (src src' : Node α β) : Prop :=
  ∃ out, src.Output = some (some out, none, src')

/-- The `Output` of `src` returns (it does not panic): a conduit or an error comes back. -/
def Node.outputReturns {α β : Type} (src : Node α β) : Prop :=
  ∃ c e src', src.Output = some (c, e, src') ∧ (c.isSome = true ∨ e.isSome = true)

/-! ### Pipeline (`pipeline.go`)

`pipeline.Run` starts one task per stage and waits for all of them; the tasks run concurrently,
so the run is a transition system.  A stage is given by what its `Run` returns in the execution
at hand. -/

/-- The `pipeline` struct; entry `i` is what the `Run` of stage `i` returns (`none` is `nil`). -/
structure pipeline where
  nodes : List (Option Err)
  deriving DecidableEq, Repr

/-- Go `New`: the empty pipeline. -/
def New : pipeline :=
  { nodes := [] }

/-- Go `pipeline.Add`. -/
def pipeline.Add (p : pipeline) (n : List (Option Err)) : pipeline :=
  { nodes := p.nodes ++ n }

/-- A scheduling choice: the task of stage `i` sees its `node.Run` return, reports the error if
there is one, and calls `wg.Done()`; or `pipeline.Run` passes `wg.Wait()` and returns. -/
inductive PipeAction where
  | stage (i : Nat)
  | ret
  deriving DecidableEq, Repr

/-- A running pipeline: which stage tasks are still running, the buffered error conduit and its
capacity, the WaitGroup counter, whether the derived token was cancelled, and what
`pipeline.Run` has returned (`none` while it waits). -/
structure PipeState where
  running : List Bool
  errChan : List Err
  errCap : Nat
  wg : Nat
  cancelled : Bool
  result : Option (Option Err)
  deriving DecidableEq, Repr

/-- The state of `pipeline.Run` at `wg.Wait()`: every stage task started. -/
def pipeline.start (p : pipeline) : PipeState :=
  { running := p.nodes.map (fun _ => true), errChan := [], errCap := p.nodes.length,
    wg := p.nodes.length, cancelled := false, result := none }

/-- One scheduled step of a running pipeline; `none` when the choice cannot move.  A failing
stage sends its error without blocking (dropped when the buffer is full) and cancels on a
successful send; the return closes the error conduit and yields its first element, if any. -/
def PipeState.step (p : pipeline) (s : PipeState) : PipeAction → Option PipeState
  | PipeAction.stage i =>
    match s.running[i]?, p.nodes[i]? with
    | some true, some none =>
      some { s with running := s.running.set i false, wg := s.wg - 1 }
    | some true, some (some err) =>
      if s.errChan.length < s.errCap then
        some { s with running := s.running.set i false, wg := s.wg - 1,
                      errChan := s.errChan ++ [err], cancelled := true }
      else some { s with running := s.running.set i false, wg := s.wg - 1 }
    | _, _ => none
  | PipeAction.ret =>
    if s.wg = 0 then
      match s.result with
      | none => some { s with result := some s.errChan.head?, cancelled := true }
      | some _ => none
    else none

/-- Run a schedule of a pipeline in which every choice can move; `none` otherwise. -/
def PipeState.run (p : pipeline) (s : PipeState) : List PipeAction → Option PipeState
  | [] => some s
  | a :: acts =>
    match s.step p a with
    | none => none
    | some s' => s'.run p acts

/-- The error a scheduled action brings to the error conduit, if any. -/
def PipeAction.err (p : pipeline) : PipeAction → Option Err
  | PipeAction.stage i => (p.nodes[i]?).join
  | PipeAction.ret => none

/-- What holds of every state of a run of `p` reached by the actions `acts`. -/
structure PipeInv (p : pipeline) (acts : List PipeAction) (s : PipeState) : Prop where
  len : s.running.length = p.nodes.length
  cap : s.errCap = p.nodes.length
  wg : s.wg = (s.running.map (fun b => if b then 1 else 0)).sum
  fin : ∀ i : Nat, s.running[i]? = some false → PipeAction.stage i ∈ acts
  errs : s.errChan = acts.filterMap (PipeAction.err p)
  room : s.errChan.length + s.wg ≤ p.nodes.length
  steps : acts.length + s.wg = p.nodes.length + (if s.result.isSome then 1 else 0)
  res : ∀ r, s.result = some r → s.wg = 0 ∧ r = s.errChan.head?

/-! ## Theorems -/

/-! ### Shared lemmas: broadcast and closing -/

theorem Broadcast_background {β : Type} (data : β) :
    ∀ (outs : List (Chan β)) (t : Nat), (∀ c ∈ outs, c.closed = false) →
      Broadcast Ctx.background t outs data
        = (Exit.ret none, t + outs.length,
            outs.map (fun c => { c with buf := c.buf ++ [data] })) := by
  intro outs
  induction outs with
  | nil => intro t _; simp [Broadcast]
  | cons c rest ih =>
    intro t h
    have hc : c.closed = false := h c (List.mem_cons_self _ _)
    have hr : ∀ d ∈ rest, d.closed = false := fun d hd => h d (List.mem_cons_of_mem _ hd)
    simp [Broadcast, Ctx.background, hc]
    have := ih (t + 1) hr
    simp [Ctx.background] at this
    rw [this]
    simp
    omega

theorem Broadcast_open {β : Type} (ctx : Ctx) (data : β) :
    ∀ (outs : List (Chan β)) (t : Nat), (∀ c ∈ outs, c.closed = false) →
      (Broadcast ctx t outs data).1 ≠ Exit.panic
      ∧ (Broadcast ctx t outs data).2.2.length = outs.length
      ∧ ∀ c ∈ (Broadcast ctx t outs data).2.2, c.closed = false := by
  intro outs
  induction outs with
  | nil => intro t _; simp [Broadcast]
  | cons c rest ih =>
    intro t h
    have hc : c.closed = false := h c (List.mem_cons_self _ _)
    have hr : ∀ d ∈ rest, d.closed = false := fun d hd => h d (List.mem_cons_of_mem _ hd)
    obtain ⟨h1, h2, h3⟩ := ih (t + 1) hr
    by_cases hd : ctx.done t = true
    · have e : Broadcast ctx t (c :: rest) data = (Exit.ret (some ctx.err), t + 1, c :: rest) := by
        simp [Broadcast, hd]
      rw [e]
      exact ⟨by simp, rfl, h⟩
    · have e : Broadcast ctx t (c :: rest) data
          = ((Broadcast ctx (t + 1) rest data).1, (Broadcast ctx (t + 1) rest data).2.1,
              { c with buf := c.buf ++ [data] } :: (Broadcast ctx (t + 1) rest data).2.2) := by
        simp [Broadcast, hd, hc]
      rw [e]
      refine ⟨h1, by simp [h2], ?_⟩
      intro d hd'
      rcases List.mem_cons.1 hd' with h4 | h4
      · rw [h4]; exact hc
      · exact h3 d h4

theorem CloseChannels_open {β : Type} :
    ∀ (outs : List (Chan β)), (∀ c ∈ outs, c.closed = false) →
      (CloseChannels outs).1 = true
      ∧ (CloseChannels outs).2 = outs.map (fun c => { c with closed := true }) := by
  intro outs
  induction outs with
  | nil => intro _; simp [CloseChannels]
  | cons c rest ih =>
    intro h
    have hc : c.closed = false := h c (List.mem_cons_self _ _)
    have hr : ∀ d ∈ rest, d.closed = false := fun d hd => h d (List.mem_cons_of_mem _ hd)
    obtain ⟨h1, h2⟩ := ih hr
    simp [CloseChannels, hc, h1, h2]

/-! ### Merge primitive -/

theorem sum_map_set {γ : Type} (f : γ → Nat) :
    ∀ (l : List γ) (i : Nat) (x y : γ), l[i]? = some x →
      ((l.set i y).map f).sum + f x = (l.map f).sum + f y := by
  intro l
  induction l with
  | nil => intro i x y h; simp at h
  | cons a l ih =>
    intro i x y h
    cases i with
    | zero =>
      simp at h
      subst h
      simp
      omega
    | succ k =>
      simp only [List.getElem?_cons_succ] at h
      have := ih k x y h
      simp only [List.set_cons_succ, List.map_cons, List.sum_cons]
      omega

theorem fanIn_init_inv {α : Type} (ins : List (List α)) (buf : Int) :
    FanInInv ins
      { lanes := ins.map (fun ch => { src := ch, pc := Fwd.recv }), wg := ins.length,
        cap := buf, sent := [], closes := 0, closerWaiting := true } := by
  refine ⟨by simp, ?_, by simp, ?_, ?_, by simp, by simp⟩
  · intro i l h
    simp only [List.getElem?_map] at h
    cases hi : ins[i]? with
    | none => simp [hi] at h
    | some ch =>
      simp [hi] at h
      subst h
      simp [FanInState.fromSource, Fwd.held]
  · simp only
    induction ins with
    | nil => rfl
    | cons a l ih => simp [Lane.live, Fwd.isDone] at ih ⊢; omega
  · intro i l h hd
    simp only [List.getElem?_map] at h
    cases hi : ins[i]? with
    | none => simp [hi] at h
    | some ch =>
      simp [hi] at h
      subst h
      simp [Fwd.isDone] at hd

theorem le_sum_map_of_getElem? {γ : Type} (f : γ → Nat) (l : List γ) (i : Nat) (x : γ)
    (h : l[i]? = some x) : f x ≤ (l.map f).sum := by
  induction l generalizing i with
  | nil => simp at h
  | cons a l ih =>
    cases i with
    | zero => simp at h; subst h; simp
    | succ k =>
      simp only [List.getElem?_cons_succ] at h
      have := ih k h
      simp only [List.map_cons, List.sum_cons]
      omega

theorem fanIn_set_inv {α : Type} (ins : List (List α)) (s : FanInState α) (i : Nat)
    (l l' : Lane α) (sent' : List (Nat × α))
    (hinv : FanInInv ins s) (hl : s.lanes[i]? = some l) (hlive : l.pc.isDone = false)
    (hsrc : ins[i]? = some ((sent'.filter (fun p => p.1 == i)).map Prod.snd
              ++ l'.pc.held ++ l'.src))
    (hother : ∀ j, j ≠ i → (sent'.filter (fun p => p.1 == j)).map Prod.snd = s.fromSource j)
    (htag : ∀ p ∈ sent', p.1 < ins.length)
    (hfin : l'.pc.isDone = true → l'.src = [])
    (hcost : l'.cost + 1 = l.cost) :
    FanInInv ins { s with lanes := s.lanes.set i l', sent := sent',
                          wg := if l'.pc.isDone then s.wg - 1 else s.wg }
    ∧ ({ s with lanes := s.lanes.set i l', sent := sent',
                 wg := if l'.pc.isDone then s.wg - 1 else s.wg } : FanInState α).cost + 1
        = s.cost := by
  have hge : 1 ≤ s.wg := by
    have := le_sum_map_of_getElem? Lane.live s.lanes i l hl
    rw [hinv.wg]
    simpa [Lane.live, hlive] using this
  have hset : ∀ m : Lane α, (s.lanes.set i m)[i]? = some m := by
    intro m
    rw [List.getElem?_set_self', hl]; rfl
  refine ⟨⟨by simp [hinv.len], ?_, htag, ?_, ?_, hinv.cl, ?_⟩, ?_⟩
  · intro j m hm
    by_cases hj : j = i
    · subst hj
      simp only [hset, Option.some.injEq] at hm
      subst hm
      exact hsrc
    · simp only [List.getElem?_set_ne (Ne.symm hj)] at hm
      have := hinv.src j m hm
      simp only [FanInState.fromSource, hother j hj]
      exact this
  · have h1 := sum_map_set Lane.live s.lanes i l l' hl
    have h2 := hinv.wg
    simp only
    by_cases hd : l'.pc.isDone = true
    · simp [Lane.live, hd, hlive] at h1 ⊢
      omega
    · simp [Lane.live, hd, hlive] at h1 ⊢
      omega
  · intro j m hm hd
    by_cases hj : j = i
    · subst hj
      simp only [hset, Option.some.injEq] at hm
      subst hm
      exact hfin hd
    · simp only [List.getElem?_set_ne (Ne.symm hj)] at hm
      exact hinv.fin j m hm hd
  · intro hcw
    have := hinv.clwg hcw
    omega
  · have h1 := sum_map_set Lane.cost s.lanes i l l' hl
    simp only [FanInState.cost]
    omega

theorem fanIn_step_inv {α : Type} (ins : List (List α)) (s s' : FanInState α)
    (a : FanInAction) (hinv : FanInInv ins s) (ha : a.isCancel = false)
    (hstep : s.step a = some s') : FanInInv ins s' ∧ s'.cost + 1 = s.cost := by
  cases a with
  | cancel i => simp [FanInAction.isCancel] at ha
  | close =>
    simp only [FanInState.step] at hstep
    split_ifs at hstep with h
    obtain ⟨hwg, hcw⟩ := h
    simp only [Option.some.injEq] at hstep
    subst hstep
    refine ⟨⟨hinv.len, hinv.src, hinv.tag, hinv.wg, hinv.fin, ?_, fun _ => hwg⟩, ?_⟩
    · have := hinv.cl
      simp [hcw] at this ⊢
      omega
    · simp [FanInState.cost, hcw]
  | forward i =>
    simp only [FanInState.step] at hstep
    cases hl : s.lanes[i]? with
    | none => simp [hl] at hstep
    | some l =>
      have hsrc := hinv.src i l hl
      have hlt : i < ins.length := by
        rcases Nat.lt_or_ge i ins.length with h | h
        · exact h
        · rw [List.getElem?_eq_none h] at hsrc; cases hsrc
      simp only [hl] at hstep
      rcases l with ⟨src, pc⟩
      cases pc with
      | done => simp [Lane.forward] at hstep
      | recv =>
        cases src with
        | nil =>
          simp only [Lane.forward, Option.some.injEq] at hstep
          subst hstep
          exact fanIn_set_inv ins s i _ _ s.sent hinv hl rfl
            (by simpa [FanInState.fromSource, Fwd.held] using hsrc)
            (fun j _ => rfl) hinv.tag (fun _ => rfl) (by simp [Lane.cost])
        | cons d rest =>
          simp only [Lane.forward, Option.some.injEq] at hstep
          subst hstep
          exact fanIn_set_inv ins s i _ _ s.sent hinv hl rfl
            (by simpa [FanInState.fromSource, Fwd.held] using hsrc)
            (fun j _ => rfl) hinv.tag (by simp [Fwd.isDone])
            (by simp [Lane.cost]; omega)
      | send d =>
        simp only [Lane.forward, Option.some.injEq] at hstep
        subst hstep
        refine fanIn_set_inv ins s i _ _ (s.sent ++ [(i, d)]) hinv hl rfl ?_ ?_ ?_
          (by simp [Fwd.isDone]) (by simp [Lane.cost])
        · simpa [FanInState.fromSource, Fwd.held, List.filter_append] using hsrc
        · intro j hj
          have : (i == j) = false := by simpa using Ne.symm hj
          simp [FanInState.fromSource, List.filter_append, List.filter_cons, this]
        · intro q hq
          rcases List.mem_append.1 hq with h | h
          · exact hinv.tag q h
          · simp at h; subst h; exact hlt

theorem fanIn_run_inv {α : Type} (ins : List (List α)) :
    ∀ (acts : List FanInAction) (s s' : FanInState α), FanInInv ins s →
      (∀ a ∈ acts, a.isCancel = false) → s.run acts = some s' →
      FanInInv ins s' ∧ s'.cost + acts.length = s.cost := by
  intro acts
  induction acts with
  | nil =>
    intro s s' hinv _ hrun
    simp only [FanInState.run, Option.some.injEq] at hrun
    subst hrun
    exact ⟨hinv, rfl⟩
  | cons a acts ih =>
    intro s s' hinv hno hrun
    simp only [FanInState.run] at hrun
    cases hs : s.step a with
    | none => simp [hs] at hrun
    | some s1 =>
      simp only [hs] at hrun
      obtain ⟨h1, h2⟩ := fanIn_step_inv ins s s1 a hinv (hno a (List.mem_cons_self _ _)) hs
      obtain ⟨h3, h4⟩ := ih s1 s' h1 (fun b hb => hno b (List.mem_cons_of_mem _ hb)) hrun
      refine ⟨h3, ?_⟩
      simp only [List.length_cons]
      omega

theorem sum_map_eq_zero_iff {γ : Type} (f : γ → Nat) (l : List γ) :
    (l.map f).sum = 0 ↔ ∀ x ∈ l, f x = 0 := by
  induction l with
  | nil => simp
  | cons a l ih =>
    simp only [List.map_cons, List.sum_cons, List.mem_cons, forall_eq_or_imp]
    rw [← ih]
    omega

theorem fanIn_inv_closed {α : Type} (ins : List (List α)) (s : FanInState α)
    (hinv : FanInInv ins s) (hcl : s.closed = true) :
    s.cost = 0 ∧ (∀ l ∈ s.lanes, l.pc = Fwd.done ∧ l.src = [])
    ∧ ∀ (i : Nat) (h : i < ins.length), s.fromSource i = ins[i] := by
  have hc : 0 < s.closes := by simpa [FanInState.closed] using hcl
  have hcw : s.closerWaiting = false := by
    have := hinv.cl
    cases h : s.closerWaiting with
    | false => rfl
    | true => simp [h] at this; omega
  have hwg := hinv.clwg hcw
  have hlive : ∀ l ∈ s.lanes, l.pc = Fwd.done := by
    intro l hl
    have h0 := (sum_map_eq_zero_iff Lane.live s.lanes).1 (by rw [← hinv.wg]; exact hwg) l hl
    cases hp : l.pc with
    | done => rfl
    | recv => simp [Lane.live, hp, Fwd.isDone] at h0
    | send d => simp [Lane.live, hp, Fwd.isDone] at h0
  have hdone : ∀ l ∈ s.lanes, l.pc = Fwd.done ∧ l.src = [] := by
    intro l hl
    obtain ⟨i, hi⟩ := List.getElem?_of_mem hl
    exact ⟨hlive l hl, hinv.fin i l hi (by simp [hlive l hl, Fwd.isDone])⟩
  refine ⟨?_, hdone, ?_⟩
  · have : (s.lanes.map Lane.cost).sum = 0 := by
      rw [sum_map_eq_zero_iff]
      intro l hl
      simp [Lane.cost, (hdone l hl).1]
    simp [FanInState.cost, this, hcw]
  · intro i h
    have hi : i < s.lanes.length := by rw [hinv.len]; exact h
    have hl : s.lanes[i]? = some s.lanes[i] := List.getElem?_eq_getElem hi
    have hm : s.lanes[i] ∈ s.lanes := List.getElem_mem hi
    have := hinv.src i _ hl
    rw [List.getElem?_eq_getElem h] at this
    simp only [(hdone _ hm).1, (hdone _ hm).2, Fwd.held, List.append_nil,
      Option.some.injEq] at this
    exact this.symm

theorem fanIn_inv_open {α : Type} (ins : List (List α)) (s : FanInState α)
    (hinv : FanInInv ins s) (hcl : s.closed = false) :
    0 < s.cost ∧ ∃ a, a.isCancel = false ∧ (s.step a).isSome = true := by
  have hc : s.closes = 0 := by simpa [FanInState.closed] using hcl
  have hcw : s.closerWaiting = true := by
    have := hinv.cl
    cases h : s.closerWaiting with
    | true => rfl
    | false => simp [h] at this; omega
  refine ⟨by simp [FanInState.cost, hcw], ?_⟩
  by_cases hwg : s.wg = 0
  · exact ⟨FanInAction.close, rfl, by simp [FanInState.step, hwg, hcw]⟩
  · have hex : ∃ l ∈ s.lanes, Lane.live l ≠ 0 := by
      by_contra hno
      push_neg at hno
      exact hwg (by rw [hinv.wg]; exact (sum_map_eq_zero_iff Lane.live s.lanes).2 hno)
    obtain ⟨l, hl, hlive⟩ := hex
    obtain ⟨i, hi⟩ := List.getElem?_of_mem hl
    refine ⟨FanInAction.forward i, rfl, ?_⟩
    rcases l with ⟨src, pc⟩
    cases pc with
    | done => simp [Lane.live, Fwd.isDone] at hlive
    | recv => cases src <;> simp [FanInState.step, hi, Lane.forward]
    | send d => simp [FanInState.step, hi, Lane.forward]

theorem sum_range_indicator (j : Nat) :
    ∀ n : Nat, j < n → ((List.range n).map (fun i => if j = i then 1 else 0)).sum = 1 := by
  intro n
  induction n with
  | zero => intro h; omega
  | succ n ih =>
    intro h
    rw [List.range_succ, List.map_append, List.sum_append]
    by_cases hj : j = n
    · subst hj
      have hz : ((List.range j).map (fun i => if j = i then 1 else 0)).sum = 0 := by
        rw [sum_map_eq_zero_iff]
        intro x hx
        have : x < j := List.mem_range.1 hx
        simp only [ite_eq_right_iff]
        intro hjx
        omega
      simp [hz]
    · have := ih (by omega)
      simp [this, hj]

theorem length_eq_sum_by_tag {α : Type} (n : Nat) :
    ∀ sent : List (Nat × α), (∀ p ∈ sent, p.1 < n) →
      sent.length
        = ((List.range n).map (fun i => (sent.filter (fun p => p.1 == i)).length)).sum := by
  intro sent
  induction sent with
  | nil => intro _; simp
  | cons p sent ih =>
    intro h
    have hp : p.1 < n := h p (List.mem_cons_self _ _)
    have hr := ih (fun q hq => h q (List.mem_cons_of_mem _ hq))
    have hsplit : (fun i => ((p :: sent).filter (fun q => q.1 == i)).length)
        = (fun i => (sent.filter (fun q => q.1 == i)).length + (if p.1 = i then 1 else 0)) := by
      funext i
      by_cases hpi : p.1 = i
      · simp [List.filter_cons, hpi]
      · simp [List.filter_cons, hpi]
    rw [hsplit, List.sum_map_add, ← hr, sum_range_indicator p.1 n hp]
    simp

theorem fanIn_delivered_length {α : Type} (ins : List (List α)) (s : FanInState α)
    (hinv : FanInInv ins s)
    (hall : ∀ (i : Nat) (h : i < ins.length), s.fromSource i = ins[i]) :
    s.delivered.length = (ins.map List.length).sum := by
  have h1 := length_eq_sum_by_tag ins.length s.sent hinv.tag
  have h2 : (List.range ins.length).map
        (fun i => (s.sent.filter (fun p => p.1 == i)).length) = ins.map List.length := by
    apply List.ext_getElem
    · simp
    · intro i hi1 hi2
      have hi : i < ins.length := by simpa using hi2
      have := hall i hi
      simp only [FanInState.fromSource] at this
      simp only [List.getElem_map, List.getElem_range]
      rw [← this, List.length_map]
  simp only [FanInState.delivered, List.length_map]
  rw [h1, h2]

theorem fanIn_completes {α : Type} (ins : List (List α)) :
    ∀ (k : Nat) (s : FanInState α), FanInInv ins s → s.cost = k →
      ∃ (more : List FanInAction) (s' : FanInState α),
        (∀ a ∈ more, a.isCancel = false) ∧ more.length = k
        ∧ s.run more = some s' ∧ s'.closed = true := by
  intro k
  induction k with
  | zero =>
    intro s hinv hcost
    cases hcl : s.closed with
    | true => exact ⟨[], s, by simp, rfl, rfl, hcl⟩
    | false =>
      have := (fanIn_inv_open ins s hinv hcl).1
      omega
  | succ k ih =>
    intro s hinv hcost
    cases hcl : s.closed with
    | true =>
      have := (fanIn_inv_closed ins s hinv hcl).1
      omega
    | false =>
      obtain ⟨a, ha, hstep⟩ := (fanIn_inv_open ins s hinv hcl).2
      obtain ⟨s1, hs1⟩ := Option.isSome_iff_exists.1 hstep
      obtain ⟨hinv1, hcost1⟩ := fanIn_step_inv ins s s1 a hinv ha hs1
      obtain ⟨more, s', hno, hlen, hrun, hclosed⟩ := ih s1 hinv1 (by omega)
      refine ⟨a :: more, s', ?_, by simp [hlen], by simp [FanInState.run, hs1, hrun], hclosed⟩
      intro b hb
      rcases List.mem_cons.1 hb with h | h
      · rw [h]; exact ha
      · exact hno b h

/-- C5: `FanIn` on a non-empty list of inputs (finite, then closed) and a buffer size that is
not negative succeeds; its tasks have a schedule, the token never firing, that runs to the
close of the merged conduit; and under every schedule of its tasks in which the token never
fires: what the merged conduit has carried from input `i` is an initial part of input `i`, in
order, and everything it carried came from one of the inputs; no schedule takes more steps
than the count fixed by the inputs (two per value, one per input, one for the close); the
conduit is closed at most once, and it is closed exactly when that count is reached; when it
is closed, every forwarder has returned, every input is used up and what was carried from
input `i` is input `i`, so every value was delivered exactly once; while it is not closed some
task can still move, so the merge cannot stall short of closing; and the schedule can always
be carried on, by exactly the steps still missing, to a state where the conduit is closed. -/
theorem fanIn_delivers_each_value_once {α : Type} (ins : List (List α)) (buf : Int)
    (hne : 1 ≤ ins.length) (hbuf : 0 ≤ buf) :
    ∃ s0 : FanInState α, FanIn ins buf = (some s0, none)
      ∧ s0.cost = (ins.map (fun ch => 2 * ch.length + 1)).sum + 1
      ∧ (∃ (acts : List FanInAction) (s : FanInState α),
          (∀ a ∈ acts, a.isCancel = false) ∧ acts.length = s0.cost
          ∧ s0.run acts = some s ∧ s.closed = true ∧ s.closes = 1
          ∧ s.delivered.length = (ins.map List.length).sum
          ∧ ∀ (i : Nat) (h : i < ins.length), s.fromSource i = ins[i])
      ∧ ∀ (acts : List FanInAction) (s : FanInState α),
          (∀ a ∈ acts, a.isCancel = false) → s0.run acts = some s →
          (∀ (i : Nat) (h : i < ins.length), ∃ rest, s.fromSource i ++ rest = ins[i])
          ∧ (∀ p ∈ s.sent, p.1 < ins.length)
          ∧ acts.length ≤ s0.cost
          ∧ s.closes ≤ 1
          ∧ (s.closed = true ↔ acts.length = s0.cost)
          ∧ (s.closed = true →
              (∀ l ∈ s.lanes, l.pc = Fwd.done ∧ l.src = [])
              ∧ ∀ (i : Nat) (h : i < ins.length), s.fromSource i = ins[i])
          ∧ (s.closed = false → ∃ a, a.isCancel = false ∧ (s.step a).isSome = true)
          ∧ (∃ (more : List FanInAction) (s' : FanInState α),
              (∀ a ∈ more, a.isCancel = false) ∧ acts.length + more.length = s0.cost
              ∧ s.run more = some s' ∧ s'.closed = true) := by
  have h0 : ¬ ins.length = 0 := by omega
  have hb : ¬ buf < 0 := by omega
  refine ⟨{ lanes := ins.map (fun ch => { src := ch, pc := Fwd.recv }), wg := ins.length,
            cap := buf, sent := [], closes := 0, closerWaiting := true },
    by simp only [FanIn, h0, hb, if_false], ?_, ?_, ?_⟩
  · simp only [FanInState.cost, List.map_map, if_true]
    congr 1
  · obtain ⟨acts, s, hno, hlen, hrun, hcl⟩ :=
      fanIn_completes ins _ _ (fanIn_init_inv ins buf) rfl
    obtain ⟨hinv, hcost⟩ := fanIn_run_inv ins acts _ s (fanIn_init_inv ins buf) hno hrun
    have hclosed := fanIn_inv_closed ins s hinv hcl
    refine ⟨acts, s, hno, hlen, hrun, hcl, ?_, ?_, hclosed.2.2⟩
    · have h1 := hinv.cl
      have h2 : 0 < s.closes := by simpa [FanInState.closed] using hcl
      split_ifs at h1 <;> omega
    · exact fanIn_delivered_length ins s hinv hclosed.2.2
  · intro acts s hno hrun
    obtain ⟨hinv, hcost⟩ := fanIn_run_inv ins acts _ s (fanIn_init_inv ins buf) hno hrun
    refine ⟨?_, hinv.tag, by omega, ?_, ?_, ?_, ?_, ?_⟩
    · intro i h
      have hi : i < s.lanes.length := by rw [hinv.len]; exact h
      have := hinv.src i _ (List.getElem?_eq_getElem hi)
      rw [List.getElem?_eq_getElem h] at this
      simp only [Option.some.injEq] at this
      exact ⟨_, by rw [this, List.append_assoc]⟩
    · have := hinv.cl
      split_ifs at this <;> omega
    · constructor
      · intro hcl
        have := (fanIn_inv_closed ins s hinv hcl).1
        omega
      · intro hlen
        cases hcl : s.closed with
        | true => rfl
        | false =>
          have := (fanIn_inv_open ins s hinv hcl).1
          omega
    · intro hcl
      exact (fanIn_inv_closed ins s hinv hcl).2
    · intro hcl
      exact (fanIn_inv_open ins s hinv hcl).2
    · obtain ⟨more, s', hno', hlen', hrun', hcl'⟩ := fanIn_completes ins _ s hinv rfl
      exact ⟨more, s', hno', by omega, hrun', hcl'⟩

/-- C5 at inputs 1, 2 and 3 with buffer size 0, under the nine-step schedule in which the two
forwarders alternate: the merged conduit carries 1, 3, 2 (1 before 2) and is then closed once,
with both forwarders returned and both inputs used up. -/
theorem fanIn_delivers_each_value_once_witness :
    ∃ s0 s : FanInState Nat, FanIn [[1, 2], [3]] 0 = (some s0, none)
      ∧ s0.run [FanInAction.forward 0, FanInAction.forward 1, FanInAction.forward 0,
                FanInAction.forward 1, FanInAction.forward 0, FanInAction.forward 0,
                FanInAction.forward 0, FanInAction.forward 1, FanInAction.close] = some s
      ∧ s.delivered = [1, 3, 2] ∧ s.closes = 1
      ∧ s.fromSource 0 = [1, 2] ∧ s.fromSource 1 = [3]
      ∧ s.closed = true
      ∧ (∀ l ∈ s.lanes, l.pc = Fwd.done ∧ l.src = [])
      ∧ (∀ (i : Nat) (h : i < [[1, 2], [3]].length), s.fromSource i = [[1, 2], [3]][i]) := by
  obtain ⟨s0, hF, _, _, hall⟩ :=
    fanIn_delivers_each_value_once [[1, 2], [3]] 0 (by decide) (by decide)
  have hs0 : s0 = { lanes := [{ src := [1, 2], pc := Fwd.recv }, { src := [3], pc := Fwd.recv }],
                    wg := 2, cap := 0, sent := [], closes := 0, closerWaiting := true } := by
    have h : (FanIn [[1, 2], [3]] 0 : Option (FanInState Nat) × Option Err)
        = (some { lanes := [{ src := [1, 2], pc := Fwd.recv }, { src := [3], pc := Fwd.recv }],
                  wg := 2, cap := 0, sent := [], closes := 0, closerWaiting := true }, none) := by
      decide
    rw [h] at hF
    simp only [Prod.mk.injEq, Option.some.injEq, and_true] at hF
    exact hF.symm
  subst hs0
  have hrun : FanInState.run
      { lanes := [{ src := [1, 2], pc := Fwd.recv }, { src := [3], pc := Fwd.recv }],
        wg := 2, cap := 0, sent := [], closes := 0, closerWaiting := true }
      [FanInAction.forward 0, FanInAction.forward 1, FanInAction.forward 0,
       FanInAction.forward 1, FanInAction.forward 0, FanInAction.forward 0,
       FanInAction.forward 0, FanInAction.forward 1, FanInAction.close]
      = some { lanes := [{ src := [], pc := Fwd.done }, { src := [], pc := Fwd.done }],
               wg := 0, cap := 0, sent := [(0, 1), (1, 3), (0, 2)], closes := 1,
               closerWaiting := false } := by
    decide
  have h := hall _ _ (by decide) hrun
  exact ⟨_, _, rfl, hrun, by decide, rfl, by decide, by decide, by decide,
    (h.2.2.2.2.2.1 (by decide)).1, (h.2.2.2.2.2.1 (by decide)).2⟩

/-- C8: for every list of inputs and every integer buffer size, `FanIn` returns
`ErrEmptyInChan` exactly when the list is empty, `ErrNegativeBufSize` exactly when the list is
not empty and the size is negative, and no error exactly in the remaining case, where it
returns a merged conduit of that capacity with one forwarding task per input; with either
error it returns no conduit and has started no task. -/
theorem fanIn_error_cases {α : Type} (ins : List (List α)) (buf : Int) :
    ((FanIn ins buf).2 = some Err.ErrEmptyInChan ↔ ins = [])
    ∧ ((FanIn ins buf).2 = some Err.ErrNegativeBufSize ↔ ins ≠ [] ∧ buf < 0)
    ∧ ((FanIn ins buf).2 = none ↔ ins ≠ [] ∧ 0 ≤ buf)
    ∧ ((FanIn ins buf).2 = none →
        ∃ s0, (FanIn ins buf).1 = some s0 ∧ s0.cap = buf ∧ s0.closed = false
          ∧ s0.delivered = [] ∧ FanIn.tasks (FanIn ins buf) = ins.length)
    ∧ ((FanIn ins buf).2 ≠ none →
        (FanIn ins buf).1 = none ∧ FanIn.tasks (FanIn ins buf) = 0) := by
  by_cases h0 : ins.length = 0
  · have hnil : ins = [] := List.length_eq_zero.1 h0
    subst hnil
    simp [FanIn, FanIn.tasks]
  · have hne : ins ≠ [] := fun h => h0 (by simp [h])
    by_cases hb : buf < 0
    · have hb' : ¬ 0 ≤ buf := by omega
      simp [FanIn, FanIn.tasks, h0, hne, hb, hb']
    · have hb' : 0 ≤ buf := by omega
      simp [FanIn, FanIn.tasks, h0, hne, hb, hb', FanInState.closed, FanInState.delivered]

/-! ### Basic transform stage -/

theorem node_loop_open {α β : Type} (n : node α β) (ctx : Ctx) (closed : Bool) :
    ∀ (merged : List α) (t : Nat) (outs : List (Chan β)), (∀ c ∈ outs, c.closed = false) →
      ∀ r outs', node.loop n ctx closed t merged outs = some (r, outs') →
        r ≠ Exit.panic ∧ outs'.length = outs.length ∧ ∀ c ∈ outs', c.closed = false := by
  intro merged
  induction merged with
  | nil =>
    intro t outs h r outs' hrun
    unfold node.loop at hrun
    split_ifs at hrun <;> simp at hrun <;> obtain ⟨rfl, rfl⟩ := hrun <;>
      exact ⟨by simp, rfl, h⟩
  | cons data merged ih =>
    intro t outs h r outs' hrun
    unfold node.loop at hrun
    split_ifs at hrun with hd
    · simp at hrun; obtain ⟨rfl, rfl⟩ := hrun; exact ⟨by simp, rfl, h⟩
    · cases hp : n.process data with
      | error err =>
        simp [hp] at hrun; obtain ⟨rfl, rfl⟩ := hrun; exact ⟨by simp, rfl, h⟩
      | ok result =>
        obtain ⟨h1, h2, h3⟩ := Broadcast_open ctx result outs (t + 1) h
        simp only [hp] at hrun
        rcases hb : Broadcast ctx (t + 1) outs result with ⟨rb, tb, ob⟩
        rw [hb] at hrun h1 h2 h3
        simp only at h1 h2 h3
        cases rb with
        | panic => exact absurd rfl h1
        | ret e =>
          cases e with
          | none =>
            simp only at hrun
            obtain ⟨g1, g2, g3⟩ := ih tb ob h3 r outs' hrun
            exact ⟨g1, by omega, g3⟩
          | some e =>
            simp at hrun; obtain ⟨rfl, rfl⟩ := hrun; exact ⟨by simp, h2, h3⟩

theorem node_loop_returns {α β : Type} (n : node α β) (ctx : Ctx) :
    ∀ (merged : List α) (t : Nat) (outs : List (Chan β)),
      (node.loop n ctx true t merged outs).isSome = true := by
  intro merged
  induction merged with
  | nil => intro t outs; simp only [node.loop]; split_ifs <;> simp
  | cons data merged ih =>
    intro t outs
    unfold node.loop
    split_ifs
    · simp
    · cases hp : n.process data with
      | error err => simp
      | ok result =>
        rcases hb : Broadcast ctx (t + 1) outs result with ⟨rb, tb, ob⟩
        cases rb with
        | panic => simp [hb]
        | ret e => cases e <;> simp [hb, ih]

/-- C2, as stated, fails: a run rejected by the run-state guard returns `ErrNodeRunning`, and a
run whose merge set-up fails (no attached input) returns `ErrEmptyInChan`, and in both the
stage's output conduit is still open on return. -/
theorem node_run_early_return_leaves_output_open :
    (node.Run (α := Nat) (β := Nat)
        { id := 1, ins := [[1]], out := [⟨10, [], false⟩], process := fun x => Except.ok x,
          isRunning := true, config := DefaultConfig } Ctx.background []).map
        (fun r => (r.1, r.2.out))
      = some (Exit.ret (some Err.ErrNodeRunning), [⟨10, [], false⟩])
    ∧ (node.Run (α := Nat) (β := Nat)
        { id := 1, ins := [], out := [⟨10, [], false⟩], process := fun x => Except.ok x,
          isRunning := false, config := DefaultConfig } Ctx.background []).map
        (fun r => (r.1, r.2.out))
      = some (Exit.ret (some Err.ErrEmptyInChan), [⟨10, [], false⟩]) := by
  decide

/-- C2, amended: for an idle basic transform stage whose merge set-up succeeds (at least one
input, `InBuffer` not negative) and whose outputs are open, every return of `Run` (merged input
exhausted, processing error, cancellation) leaves every output conduit closed, without panic;
`Run` does return once the merged conduit closes; and a `Run` rejected by the run-state guard
returns `ErrNodeRunning` with the stage, its outputs included, untouched. -/
theorem node_run_closes_outputs {α β : Type} (n : node α β) (ctx : Ctx)
    (acts : List FanInAction)
    (hidle : n.isRunning = false) (hins : 1 ≤ n.ins.length) (hbuf : 0 ≤ n.config.InBuffer)
    (hopen : ∀ c ∈ n.out, c.closed = false) :
    (∀ r n', node.Run n ctx acts = some (r, n') →
        r ≠ Exit.panic ∧ n'.out.length = n.out.length ∧ ∀ c ∈ n'.out, c.closed = true)
    ∧ (∀ s0, FanIn n.ins n.config.InBuffer = (some s0, none) →
        (s0.exec acts).closed = true → (node.Run n ctx acts).isSome = true)
    ∧ (∀ k : node α β, k.isRunning = true →
        node.Run k ctx acts = some (Exit.ret (some Err.ErrNodeRunning), k)) := by
  have h0 : ¬ n.ins.length = 0 := by omega
  have hb : ¬ n.config.InBuffer < 0 := by omega
  refine ⟨?_, ?_, ?_⟩
  · intro r n' hrun
    simp only [node.Run, hidle, FanIn, h0, hb, Bool.false_eq_true, if_false] at hrun
    split at hrun
    · cases hrun
    · rename_i rl ol hl
      obtain ⟨g1, g2, g3⟩ := node_loop_open n ctx _ _ 0 n.out hopen rl ol hl
      obtain ⟨c1, c2⟩ := CloseChannels_open ol g3
      rcases hc : CloseChannels ol with ⟨ok, oc⟩
      rw [hc] at c1 c2
      simp only at c1 c2
      simp only [hc, c1, if_true, Option.some.injEq, Prod.mk.injEq] at hrun
      obtain ⟨rfl, rfl⟩ := hrun
      refine ⟨g1, by simp [c2, g2], ?_⟩
      intro c hcm
      simp only [c2] at hcm
      obtain ⟨d, _, rfl⟩ := List.mem_map.1 hcm
      rfl
  · intro s0 hs0 hcl
    have hl := node_loop_returns n ctx (s0.exec acts).delivered 0 n.out
    simp only [node.Run, hidle, hs0, hcl, Bool.false_eq_true, if_false]
    cases hlp : node.loop n ctx true 0 (s0.exec acts).delivered n.out with
    | none => rw [hlp] at hl; cases hl
    | some p => simp
  · intro k hk
    simp [node.Run, hk]

/-- C2, amended, at a stage with one input holding 1 and 2, one output, and a schedule that
lets the merge forward both values and close. -/
theorem node_run_closes_outputs_witness :
    (∀ r n', node.Run (α := Nat) (β := Nat)
        { id := 1, ins := [[1, 2]], out := [⟨10, [], false⟩], process := fun x => Except.ok x,
          isRunning := false, config := DefaultConfig } Ctx.background
        [FanInAction.forward 0, FanInAction.forward 0, FanInAction.forward 0,
         FanInAction.forward 0, FanInAction.forward 0, FanInAction.close] = some (r, n') →
        r ≠ Exit.panic ∧ n'.out.length = 1 ∧ ∀ c ∈ n'.out, c.closed = true)
    ∧ (node.Run (α := Nat) (β := Nat)
        { id := 1, ins := [[1, 2]], out := [⟨10, [], false⟩], process := fun x => Except.ok x,
          isRunning := false, config := DefaultConfig } Ctx.background
        [FanInAction.forward 0, FanInAction.forward 0, FanInAction.forward 0,
         FanInAction.forward 0, FanInAction.forward 0, FanInAction.close]).isSome = true :=
  have h := node_run_closes_outputs (α := Nat) (β := Nat)
    { id := 1, ins := [[1, 2]], out := [⟨10, [], false⟩], process := fun x => Except.ok x,
      isRunning := false, config := DefaultConfig } Ctx.background
    [FanInAction.forward 0, FanInAction.forward 0, FanInAction.forward 0,
     FanInAction.forward 0, FanInAction.forward 0, FanInAction.close]
    rfl (by decide) (by decide) (by decide)
  ⟨h.1, h.2.1 _ rfl (by decide)⟩

/-! ### Zip stage -/

theorem zip_readInputs_background_ok {α : Type} :
    ∀ (chs : List (List α)) (t : Nat), (∀ ch ∈ chs, ch ≠ []) →
      zip.readInputs Ctx.background t chs
        = (Except.ok (chs.filterMap List.head?), t + chs.length, chs.map List.tail) := by
  intro chs
  induction chs with
  | nil => intro t _; simp [zip.readInputs]
  | cons ch chs ih =>
    intro t h
    have hr : ∀ d ∈ chs, d ≠ [] := fun d hd => h d (List.mem_cons_of_mem _ hd)
    cases ch with
    | nil => exact absurd rfl (h [] (List.mem_cons_self _ _))
    | cons a ch' =>
      have := ih (t + 1) hr
      simp [Ctx.background] at this
      simp [zip.readInputs, Ctx.background, this]
      omega

theorem zip_readInputs_background_closed {α : Type} :
    ∀ (chs : List (List α)) (t : Nat), (∃ ch ∈ chs, ch = []) →
      ∃ t' chs', zip.readInputs Ctx.background t chs
        = (Except.error Err.ErrZipNodeClosedInput, t', chs') := by
  intro chs
  induction chs with
  | nil => intro t h; obtain ⟨ch, hch, _⟩ := h; cases hch
  | cons ch chs ih =>
    intro t h
    cases ch with
    | nil => exact ⟨t + 1, [] :: chs, by simp [zip.readInputs, Ctx.background]⟩
    | cons a ch' =>
      have h' : ∃ d ∈ chs, d = [] := by
        obtain ⟨d, hd, hd0⟩ := h
        rcases List.mem_cons.1 hd with h1 | h1
        · subst h1; cases hd0
        · exact ⟨d, h1, hd0⟩
      obtain ⟨t', chs', he⟩ := ih (t + 1) h'
      simp [Ctx.background] at he
      exact ⟨t', ch' :: chs', by simp [zip.readInputs, Ctx.background, he]⟩

theorem zip_loop_background {α β : Type} (n : zip α β) (f : List α → β)
    (hproc : ∀ xs, n.process xs = Except.ok (f xs)) :
    ∀ (m fuel t : Nat) (chs : List (List α)) (outs : List (Chan β)),
      (∀ ch ∈ chs, m ≤ ch.length) → (∃ ch ∈ chs, ch.length = m) →
      (∀ c ∈ outs, c.closed = false) → m < fuel →
      ∃ es chs', zip.loop n Ctx.background fuel t chs outs
          = some (Exit.ret (some Err.ErrZipNodeClosedInput), chs',
              outs.map (fun c => { c with buf := c.buf ++ es }))
        ∧ es.length = m
        ∧ ∀ i, i < m → ∃ row, chs.map (fun ch => ch[i]?) = row.map some
            ∧ es[i]? = some (f row) := by
  intro m
  induction m with
  | zero =>
    intro fuel t chs outs _ hex _ hfuel
    obtain ⟨fuel', rfl⟩ : ∃ k, fuel = k + 1 := ⟨fuel - 1, by omega⟩
    have hcl : ∃ ch ∈ chs, ch = [] := by
      obtain ⟨ch, hch, h0⟩ := hex
      exact ⟨ch, hch, List.length_eq_zero.1 h0⟩
    obtain ⟨t', chs', he⟩ := zip_readInputs_background_closed chs (t + 1) hcl
    refine ⟨[], chs', ?_, rfl, ?_⟩
    · have hb : Ctx.background.done t = false := rfl
      simp [zip.loop, hb, he]
    · intro i hi; omega
  | succ m ih =>
    intro fuel t chs outs hall hex hopen hfuel
    obtain ⟨fuel', rfl⟩ : ∃ k, fuel = k + 1 := ⟨fuel - 1, by omega⟩
    have hne : ∀ ch ∈ chs, ch ≠ [] := by
      intro ch hch h0
      have := hall ch hch
      simp [h0] at this
    have hall' : ∀ ch ∈ chs.map List.tail, m ≤ ch.length := by
      intro ch hch
      obtain ⟨d, hd, rfl⟩ := List.mem_map.1 hch
      have := hall d hd
      simp
      omega
    have hex' : ∃ ch ∈ chs.map List.tail, ch.length = m := by
      obtain ⟨d, hd, hl⟩ := hex
      exact ⟨d.tail, List.mem_map_of_mem _ hd, by simp [hl]⟩
    have hopen' : ∀ c ∈ outs.map (fun c : Chan β =>
        { c with buf := c.buf ++ [f (chs.filterMap List.head?)] }), c.closed = false := by
      intro c hc
      obtain ⟨d, hd, rfl⟩ := List.mem_map.1 hc
      exact hopen d hd
    obtain ⟨es, chs', hrun, hlen, hrows⟩ :=
      ih fuel' (t + 1 + chs.length + outs.length) (chs.map List.tail) _ hall' hex' hopen'
        (by omega)
    refine ⟨f (chs.filterMap List.head?) :: es, chs', ?_, by simp [hlen], ?_⟩
    · have hb : Ctx.background.done t = false := rfl
      simp only [zip.loop, hb, zip_readInputs_background_ok chs (t + 1) hne, hproc,
        Broadcast_background _ outs _ hopen]
      simp only [Bool.false_eq_true, if_false]
      rw [hrun]
      simp [List.map_map, Function.comp_def]
    · intro i hi
      cases i with
      | zero =>
        refine ⟨chs.filterMap List.head?, ?_, by simp⟩
        clear hrun hrows hall' hex' hopen' hex hall ih
        induction chs with
        | nil => rfl
        | cons ch chs ihc =>
          have h1 : ch ≠ [] := hne ch (List.mem_cons_self _ _)
          have h2 : ∀ d ∈ chs, d ≠ [] := fun d hd => hne d (List.mem_cons_of_mem _ hd)
          cases ch with
          | nil => exact absurd rfl h1
          | cons a ch' => simp [ihc h2]
      | succ k =>
        obtain ⟨row, hrow, hes⟩ := hrows k (by omega)
        refine ⟨row, ?_, by simpa using hes⟩
        rw [← hrow, List.map_map]
        apply List.map_congr_left
        intro ch _
        cases ch <;> simp

/-- C1: a zip stage with at least one input, finite inputs that are then closed, a combine
function that always succeeds, open outputs and a token that never fires emits exactly `m`
values, `m` the length of the shortest input; the `i`-th is combine of the `i`-th values of the
inputs in attachment order; every output conduit receives them in that order; and `Run` then
returns `ErrZipNodeClosedInput`.  Any fuel above `m` is enough for `Run` to return. -/
theorem zip_run_emits_shortest {α β : Type} (n : zip α β) (f : List α → β) (m fuel : Nat)
    (hproc : ∀ xs, n.process xs = Except.ok (f xs))
    (hin : 1 ≤ n.ins.length)
    (hmin : ∀ ch ∈ n.ins, m ≤ ch.length) (hshort : ∃ ch ∈ n.ins, ch.length = m)
    (hopen : ∀ c ∈ n.out, c.closed = false) (hfuel : m < fuel) :
    ∃ es n', zip.Run n Ctx.background fuel
          = some (Exit.ret (some Err.ErrZipNodeClosedInput), n')
      ∧ es.length = m
      ∧ (∀ i, i < m → ∃ row, n.ins.map (fun ch => ch[i]?) = row.map some
          ∧ es[i]? = some (f row))
      ∧ n'.out = n.out.map (fun c => { c with buf := c.buf ++ es }) := by
  obtain ⟨es, chs', hrun, hlen, hrows⟩ :=
    zip_loop_background n f hproc m fuel 0 n.ins n.out hmin hshort hopen hfuel
  refine ⟨es, { n with ins := chs', out := n.out.map (fun c => { c with buf := c.buf ++ es }) },
    ?_, hlen, hrows, rfl⟩
  have h0 : ¬ n.ins.length = 0 := by omega
  simp [zip.Run, h0, hrun]

/-- C1 at inputs of lengths 3 and 2: two sums are emitted, then the premature-closure error. -/
theorem zip_run_emits_shortest_witness :
    ∃ (es : List Nat) (n' : zip Nat Nat), zip.Run
          { id := 1, ins := [[1, 2, 3], [10, 20]], out := [⟨10, [], false⟩],
            process := fun xs => Except.ok xs.sum, config := DefaultConfig } Ctx.background 3
          = some (Exit.ret (some Err.ErrZipNodeClosedInput), n')
      ∧ es.length = 2
      ∧ (∀ i, i < 2 → ∃ row : List Nat,
            [[1, 2, 3], [10, 20]].map (fun ch => ch[i]?) = row.map some
          ∧ es[i]? = some (row.sum))
      ∧ n'.out
          = [(⟨10, [], false⟩ : Chan Nat)].map (fun c => { c with buf := c.buf ++ es }) :=
  zip_run_emits_shortest
    { id := 1, ins := [[1, 2, 3], [10, 20]], out := [⟨10, [], false⟩],
      process := fun xs => Except.ok xs.sum, config := DefaultConfig }
    List.sum 2 3 (fun _ => rfl) (by decide) (by decide) (by decide) (by decide) (by decide)

/-- C3: `zip.Run` leaves its output conduit open on each of its exit paths.  At a stage with
one open output: no input gives `ErrZipNodeNoInput`, an input closed without a value gives
`ErrZipNodeClosedInput`, a failing combine gives the wrapped error, a fired token gives the
token's error, and in all four the output conduit is still open when `Run` has returned. -/
theorem zip_run_leaves_output_open :
    (zip.Run (α := Nat) (β := Nat)
        { id := 1, ins := [], out := [⟨10, [], false⟩], process := fun xs => Except.ok xs.sum,
          config := DefaultConfig } Ctx.background 1).map (fun r => (r.1, r.2.out))
      = some (Exit.ret (some Err.ErrZipNodeNoInput), [⟨10, [], false⟩])
    ∧ (zip.Run (α := Nat) (β := Nat)
        { id := 1, ins := [[]], out := [⟨10, [], false⟩], process := fun xs => Except.ok xs.sum,
          config := DefaultConfig } Ctx.background 1).map (fun r => (r.1, r.2.out))
      = some (Exit.ret (some Err.ErrZipNodeClosedInput), [⟨10, [], false⟩])
    ∧ (zip.Run (α := Nat) (β := Nat)
        { id := 1, ins := [[7]], out := [⟨10, [], false⟩],
          process := fun _ => Except.error (Err.user "boom"),
          config := DefaultConfig } Ctx.background 1).map (fun r => (r.1, r.2.out))
      = some (Exit.ret (some (Err.wrapf "zip-node-1" (Err.user "boom"))), [⟨10, [], false⟩])
    ∧ (zip.Run (α := Nat) (β := Nat)
        { id := 1, ins := [[7]], out := [⟨10, [], false⟩],
          process := fun xs => Except.ok xs.sum,
          config := DefaultConfig } { done := fun _ => true, err := Err.Canceled } 1).map
        (fun r => (r.1, r.2.out))
      = some (Exit.ret (some Err.Canceled), [⟨10, [], false⟩]) := by
  decide

/-! ### Zip stage: every return is an error -/

theorem Broadcast_exit {β : Type} (ctx : Ctx) (data : β) :
    ∀ (outs : List (Chan β)) (t : Nat),
      (Broadcast ctx t outs data).1 = Exit.ret none
      ∨ (Broadcast ctx t outs data).1 = Exit.ret (some ctx.err)
      ∨ (Broadcast ctx t outs data).1 = Exit.panic := by
  intro outs
  induction outs with
  | nil => intro t; simp [Broadcast]
  | cons c rest ih =>
    intro t
    unfold Broadcast
    split_ifs
    · simp
    · simp
    · exact ih (t + 1)

theorem zip_readInputs_error {α : Type} (ctx : Ctx) :
    ∀ (chs : List (List α)) (t t' : Nat) (e : Err) (chs' : List (List α)),
      zip.readInputs ctx t chs = (Except.error e, t', chs') →
      e = Err.ErrZipNodeClosedInput ∨ e = ctx.err := by
  intro chs
  induction chs with
  | nil => intro t t' e chs' h; simp [zip.readInputs] at h
  | cons ch chs ih =>
    intro t t' e chs' h
    unfold zip.readInputs at h
    split_ifs at h
    · simp only [Prod.mk.injEq, Except.error.injEq] at h
      exact Or.inr h.1.symm
    · cases ch with
      | nil =>
        simp only [Prod.mk.injEq, Except.error.injEq] at h
        exact Or.inl h.1.symm
      | cons data ch' =>
        simp only at h
        rcases hr : zip.readInputs ctx (t + 1) chs with ⟨r, t1, chs1⟩
        rw [hr] at h
        cases r with
        | ok row => simp at h
        | error e1 =>
          simp only [Prod.mk.injEq, Except.error.injEq] at h
          rw [← h.1]
          exact ih (t + 1) t1 e1 chs1 hr

theorem zip_readInputs_ok_head {α : Type} (ctx : Ctx) (ch : List α) (chs : List (List α))
    (t t' : Nat) (row : List α) (chs' : List (List α))
    (h : zip.readInputs ctx t (ch :: chs) = (Except.ok row, t', chs')) :
    ∃ rest', chs' = ch.tail :: rest' ∧ ch ≠ [] := by
  unfold zip.readInputs at h
  split_ifs at h
  · simp at h
  · cases ch with
    | nil => simp at h
    | cons data ch' =>
      simp only at h
      rcases hr : zip.readInputs ctx (t + 1) chs with ⟨r, t1, chs1⟩
      rw [hr] at h
      cases r with
      | error e1 => simp at h
      | ok row1 =>
        simp only [Prod.mk.injEq] at h
        exact ⟨chs1, by rw [← h.2.2]; rfl, by simp⟩

theorem zip_loop_exit {α β : Type} (n : zip α β) (ctx : Ctx) :
    ∀ (fuel t : Nat) (chs : List (List α)) (outs : List (Chan β)) (e : Option Err)
      (chs' : List (List α)) (outs' : List (Chan β)),
      zip.loop n ctx fuel t chs outs = some (Exit.ret e, chs', outs') →
      e = some Err.ErrZipNodeClosedInput
      ∨ (∃ row err, n.process row = Except.error err ∧ e = some (Err.wrapf n.ID err))
      ∨ e = some ctx.err := by
  intro fuel
  induction fuel with
  | zero => intro t chs outs e chs' outs' h; simp [zip.loop] at h
  | succ fuel ih =>
    intro t chs outs e chs' outs' h
    unfold zip.loop at h
    split_ifs at h
    · simp only [Option.some.injEq, Prod.mk.injEq, Exit.ret.injEq] at h
      exact Or.inr (Or.inr h.1.symm)
    · rcases hr : zip.readInputs ctx (t + 1) chs with ⟨r, t1, chs1⟩
      rw [hr] at h
      cases r with
      | error e1 =>
        simp only [Option.some.injEq, Prod.mk.injEq, Exit.ret.injEq] at h
        rcases zip_readInputs_error ctx chs (t + 1) t1 e1 chs1 hr with h1 | h1
        · exact Or.inl (by rw [← h.1, h1])
        · exact Or.inr (Or.inr (by rw [← h.1, h1]))
      | ok inputs =>
        simp only at h
        cases hp : n.process inputs with
        | error err =>
          simp only [hp, Option.some.injEq, Prod.mk.injEq, Exit.ret.injEq] at h
          exact Or.inr (Or.inl ⟨inputs, err, hp, h.1.symm⟩)
        | ok res =>
          simp only [hp] at h
          have hb := Broadcast_exit ctx res outs t1
          rcases hbr : Broadcast ctx t1 outs res with ⟨rb, tb, ob⟩
          rw [hbr] at h hb
          simp only at hb
          rcases hb with hb | hb | hb
          · subst hb
            exact ih tb chs1 ob e chs' outs' h
          · subst hb
            simp only [Option.some.injEq, Prod.mk.injEq, Exit.ret.injEq] at h
            exact Or.inr (Or.inr h.1.symm)
          · subst hb
            simp at h

theorem zip_loop_returns {α β : Type} (n : zip α β) (ctx : Ctx) :
    ∀ (fuel t : Nat) (ch : List α) (chs : List (List α)) (outs : List (Chan β)),
      ch.length < fuel → (zip.loop n ctx fuel t (ch :: chs) outs).isSome = true := by
  intro fuel
  induction fuel with
  | zero => intro t ch chs outs h; omega
  | succ fuel ih =>
    intro t ch chs outs hlen
    unfold zip.loop
    split_ifs
    · rfl
    · rcases hr : zip.readInputs ctx (t + 1) (ch :: chs) with ⟨r, t1, chs1⟩
      cases r with
      | error e1 => rfl
      | ok inputs =>
        simp only
        cases hp : n.process inputs with
        | error err => rfl
        | ok res =>
          simp only
          obtain ⟨rest', hchs, hne⟩ :=
            zip_readInputs_ok_head ctx ch chs (t + 1) t1 inputs chs1 hr
          have hb := Broadcast_exit ctx res outs t1
          rcases hbr : Broadcast ctx t1 outs res with ⟨rb, tb, ob⟩
          rw [hbr] at hb
          simp only at hb
          rcases hb with hb | hb | hb
          · subst hb
            simp only
            rw [hchs]
            apply ih
            cases ch with
            | nil => exact absurd rfl hne
            | cons d ch' => simp at hlen ⊢; omega
          · subst hb; rfl
          · subst hb; rfl

/-- C12: `zip.Run` has no successful exit.  For every stage (any number of inputs, any input
contents, any combine function), every token and every fuel, a value that `Run` returns is
never `nil`: it is `ErrZipNodeNoInput`, `ErrZipNodeClosedInput`, an error of the combine
function wrapped with the stage's `ID()`, or the token's error.  `Run` does return: at once
with `ErrZipNodeNoInput` when no input is attached, and otherwise with any fuel above the
length of the first input. -/
theorem zip_run_returns_error {α β : Type} (n : zip α β) (ctx : Ctx) (fuel : Nat) :
    (∀ (e : Option Err) (n' : zip α β), zip.Run n ctx fuel = some (Exit.ret e, n') →
        e ≠ none
        ∧ (e = some Err.ErrZipNodeNoInput
          ∨ e = some Err.ErrZipNodeClosedInput
          ∨ (∃ row err, n.process row = Except.error err ∧ e = some (Err.wrapf n.ID err))
          ∨ e = some ctx.err))
    ∧ (n.ins = [] → zip.Run n ctx fuel = some (Exit.ret (some Err.ErrZipNodeNoInput), n))
    ∧ (∀ ch chs, n.ins = ch :: chs → ch.length < fuel →
        (zip.Run n ctx fuel).isSome = true) := by
  refine ⟨?_, ?_, ?_⟩
  · intro e n' h
    have key : e = some Err.ErrZipNodeNoInput
        ∨ e = some Err.ErrZipNodeClosedInput
        ∨ (∃ row err, n.process row = Except.error err ∧ e = some (Err.wrapf n.ID err))
        ∨ e = some ctx.err := by
      unfold zip.Run at h
      split_ifs at h
      · simp only [Option.some.injEq, Prod.mk.injEq, Exit.ret.injEq] at h
        exact Or.inl h.1.symm
      · cases hl : zip.loop n ctx fuel 0 n.ins n.out with
        | none => simp [hl] at h
        | some q =>
          obtain ⟨r, chs, outs⟩ := q
          simp only [hl, Option.some.injEq, Prod.mk.injEq] at h
          have hr : r = Exit.ret e := h.1
          subst hr
          exact Or.inr (zip_loop_exit n ctx fuel 0 n.ins n.out e chs outs hl)
    refine ⟨?_, key⟩
    rcases key with h1 | h1 | ⟨_, _, _, h1⟩ | h1 <;> simp [h1]
  · intro h
    simp [zip.Run, h]
  · intro ch chs h hlen
    have hl := zip_loop_returns n ctx fuel 0 ch chs n.out hlen
    have h0 : ¬ n.ins.length = 0 := by rw [h]; simp
    rw [← h] at hl
    simp only [zip.Run, h0, if_false]
    cases hq : zip.loop n ctx fuel 0 n.ins n.out with
    | none => rw [hq] at hl; cases hl
    | some q => rfl

/-- C12 at two inputs of equal length, 1, 2 and 10, 20, that close after their last value: the
two sums are sent, and `Run` then returns `ErrZipNodeClosedInput`, not `nil`. -/
theorem zip_run_returns_error_witness :
    ∃ n' : zip Nat Nat, zip.Run
          { id := 1, ins := [[1, 2], [10, 20]], out := [⟨10, [], false⟩],
            process := fun xs => Except.ok xs.sum, config := DefaultConfig } Ctx.background 3
          = some (Exit.ret (some Err.ErrZipNodeClosedInput), n')
      ∧ n'.out = [⟨10, [11, 22], false⟩]
      ∧ some Err.ErrZipNodeClosedInput ≠ (none : Option Err) :=
  ⟨{ id := 1, ins := [[], []], out := [⟨10, [11, 22], false⟩],
     process := fun xs => Except.ok xs.sum, config := DefaultConfig }, rfl, rfl,
   ((zip_run_returns_error (α := Nat) (β := Nat)
      { id := 1, ins := [[1, 2], [10, 20]], out := [⟨10, [], false⟩],
        process := fun xs => Except.ok xs.sum, config := DefaultConfig } Ctx.background 3).1
      (some Err.ErrZipNodeClosedInput)
      { id := 1, ins := [[], []], out := [⟨10, [11, 22], false⟩],
        process := fun xs => Except.ok xs.sum, config := DefaultConfig } rfl).1⟩

/-! ### Worker pool stage -/

/-- C4: a pool of two workers on the input 1, 2 whose `process` fails on 1.  Worker 0 takes 1,
worker 1 takes 2, worker 0 fails and reports, and `Run` takes the error case: it returns the
wrapped error and its deferred close shuts the output while worker 1 is still processing 2,
the token not having fired and nothing having panicked.  Worker 1 then finishes processing and
sends its result on the closed output: a panic. -/
theorem workerPool_run_closes_output_under_running_worker :
    (poolFailingOnOne.runSchedule
        [PoolAction.work 0, PoolAction.work 1, PoolAction.work 0, PoolAction.work 0,
         PoolAction.retErr]).map (fun s => s.result)
      = some (some (some (Err.wrapf "worker-pool-node-1" (Err.user "boom"))))
    ∧ (poolFailingOnOne.runSchedule
        [PoolAction.work 0, PoolAction.work 1, PoolAction.work 0, PoolAction.work 0,
         PoolAction.retErr]).map (fun s => s.out.closed) = some true
    ∧ (poolFailingOnOne.runSchedule
        [PoolAction.work 0, PoolAction.work 1, PoolAction.work 0, PoolAction.work 0,
         PoolAction.retErr]).map (fun s => s.workers)
      = some [Worker.stopped, Worker.processing 2]
    ∧ (poolFailingOnOne.runSchedule
        [PoolAction.work 0, PoolAction.work 1, PoolAction.work 0, PoolAction.work 0,
         PoolAction.retErr]).map (fun s => (s.ctxDone, s.panicked)) = some (false, false)
    ∧ (poolFailingOnOne.runSchedule
        [PoolAction.work 0, PoolAction.work 1, PoolAction.work 0, PoolAction.work 0,
         PoolAction.retErr, PoolAction.work 1, PoolAction.work 1]).map
        (fun s => (s.workers, s.panicked))
      = some ([Worker.stopped, Worker.stopped], true) := by
  decide

/-! ### Worker pool: where returned errors come from -/

theorem forall_mem_set {γ : Type} (P : γ → Prop) (l : List γ) (i : Nat) (x : γ)
    (hl : ∀ y ∈ l, P y) (hx : P x) : ∀ y ∈ l.set i x, P y := by
  intro y hy
  rcases List.mem_or_eq_of_mem_set hy with h | h
  · exact hl y h
  · rw [h]; exact hx

theorem pool_ret_inv {α β : Type} (n : workerPool α β) (input : List α) (s : PoolState α β)
    (r : Option Err) (hinv : PoolInv n input s)
    (hr : ∀ r', r = some r' →
      (r' = s.ctxErr ∧ s.ctxDone = true)
      ∨ ∃ e x, x ∈ input ∧ n.process x = Except.error e ∧ r' = Err.wrapf n.ID e) :
    PoolInv n input (s.ret r) := by
  unfold PoolState.ret
  split_ifs
  · exact ⟨hinv.inp, hinv.wk, hinv.ec, fun r' h => hr r' (by simpa using h)⟩
  · exact ⟨hinv.inp, hinv.wk, hinv.ec, fun r' h => hr r' (by simpa using h)⟩

theorem pool_step_inv {α β : Type} (n : workerPool α β) (input : List α)
    (s s' : PoolState α β) (a : PoolAction) (hinv : PoolInv n input s)
    (hstep : s.step n a = some s') : PoolInv n input s' := by
  cases a with
  | work i =>
    simp only [PoolState.step] at hstep
    cases hw : s.workers[i]? with
    | none => simp [hw] at hstep
    | some w =>
      have hwin : Worker.fromInput n input w := hinv.wk w (List.mem_iff_getElem?.2 ⟨i, hw⟩)
      cases w with
      | stopped => simp [hw] at hstep
      | recv =>
        cases hin : s.input with
        | nil =>
          simp only [hw, hin, Option.some.injEq] at hstep
          subst hstep
          exact ⟨by simp, forall_mem_set _ _ _ _ hinv.wk trivial, hinv.ec, hinv.res⟩
        | cons data rest =>
          simp only [hw, hin, Option.some.injEq] at hstep
          subst hstep
          have hd : data ∈ input := hinv.inp data (by simp [hin])
          exact ⟨fun x hx => hinv.inp x (by simp [hin, hx]),
            forall_mem_set _ _ _ _ hinv.wk hd, hinv.ec, hinv.res⟩
      | processing data =>
        cases hp : n.process data with
        | error err =>
          simp only [hw, hp, Option.some.injEq] at hstep
          subst hstep
          exact ⟨hinv.inp, forall_mem_set _ _ _ _ hinv.wk ⟨data, hwin, hp⟩, hinv.ec,
            hinv.res⟩
        | ok result =>
          simp only [hw, hp, Option.some.injEq] at hstep
          subst hstep
          exact ⟨hinv.inp, forall_mem_set _ _ _ _ hinv.wk trivial, hinv.ec, hinv.res⟩
      | reporting err =>
        simp only [hw, Option.some.injEq] at hstep
        subst hstep
        refine ⟨hinv.inp, forall_mem_set _ _ _ _ hinv.wk trivial, ?_, hinv.res⟩
        intro e he
        simp only at he
        split_ifs at he
        · rcases List.mem_append.1 he with h | h
          · exact hinv.ec e h
          · simp at h; subst h; exact hwin
        · exact hinv.ec e he
      | sending result =>
        simp only [hw] at hstep
        split_ifs at hstep
        · simp only [Option.some.injEq] at hstep
          subst hstep
          exact ⟨hinv.inp, forall_mem_set _ _ _ _ hinv.wk trivial, hinv.ec, hinv.res⟩
        · simp only [Option.some.injEq] at hstep
          subst hstep
          exact ⟨hinv.inp, forall_mem_set _ _ _ _ hinv.wk trivial, hinv.ec, hinv.res⟩
  | workCancel i =>
    simp only [PoolState.step] at hstep
    split_ifs at hstep
    split at hstep
    · simp only [Option.some.injEq] at hstep
      subst hstep
      exact ⟨hinv.inp, forall_mem_set _ _ _ _ hinv.wk trivial, hinv.ec, hinv.res⟩
    · simp only [Option.some.injEq] at hstep
      subst hstep
      exact ⟨hinv.inp, forall_mem_set _ _ _ _ hinv.wk trivial, hinv.ec, hinv.res⟩
    · cases hstep
  | wait =>
    simp only [PoolState.step] at hstep
    split_ifs at hstep
    simp only [Option.some.injEq] at hstep
    subst hstep
    exact ⟨hinv.inp, hinv.wk, hinv.ec, hinv.res⟩
  | retErr =>
    simp only [PoolState.step] at hstep
    split at hstep
    · rename_i err rest hres herr
      simp only [Option.some.injEq] at hstep
      subst hstep
      obtain ⟨x, hx, hp⟩ := hinv.ec err (by simp [herr])
      refine pool_ret_inv n input _ _
        ⟨hinv.inp, hinv.wk, fun e he => hinv.ec e (by simp [herr, he]), ?_⟩ ?_
      · intro r h
        simp only [hres] at h
        cases h
      · intro r' h
        simp only [Option.some.injEq] at h
        exact Or.inr ⟨err, x, hx, hp, h.symm⟩
    · cases hstep
  | retCtx =>
    simp only [PoolState.step] at hstep
    split at hstep
    · split_ifs at hstep
      simp only [Option.some.injEq] at hstep
      subst hstep
      rename_i hdone
      exact pool_ret_inv n input s _ hinv
        (fun r' h => Or.inl ⟨by simpa using h.symm, hdone⟩)
    · cases hstep
  | retDone =>
    simp only [PoolState.step] at hstep
    split at hstep
    · split_ifs at hstep
      simp only [Option.some.injEq] at hstep
      subst hstep
      exact pool_ret_inv n input s _ hinv (fun r' h => by cases h)
    · cases hstep
  | fire err =>
    simp only [PoolState.step] at hstep
    split_ifs at hstep with hdone
    simp only [Option.some.injEq] at hstep
    subst hstep
    refine ⟨hinv.inp, hinv.wk, hinv.ec, ?_⟩
    intro r hr
    rcases hinv.res r hr with h | h
    · exact absurd h.2 hdone
    · exact Or.inr h

theorem pool_exec_inv {α β : Type} (n : workerPool α β) (input : List α) :
    ∀ (acts : List PoolAction) (s : PoolState α β), PoolInv n input s →
      PoolInv n input (s.exec n acts) := by
  intro acts
  induction acts with
  | nil => intro s h; exact h
  | cons a acts ih =>
    intro s h
    simp only [PoolState.exec]
    cases hs : s.step n a with
    | none => exact ih s h
    | some s1 => exact ih s1 (pool_step_inv n input s s1 a h hs)

theorem pool_start_inv {α β : Type} (n : workerPool α β) (input : List α)
    (s0 : PoolState α β) (hin : n.ins = some input) (hs : workerPool.start n = some s0) :
    PoolInv n input s0 := by
  unfold workerPool.start at hs
  rw [hin] at hs
  cases ho : n.out with
  | none => simp [ho] at hs
  | some out =>
    simp only [ho] at hs
    split_ifs at hs
    simp only [Option.some.injEq] at hs
    subst hs
    refine ⟨fun x hx => hx, ?_, by simp, by simp⟩
    intro w hw
    rw [List.eq_of_mem_replicate hw]
    trivial

/-! ### User-function errors -/

theorem Err.wrapf_ne (e : Err) : ∀ pre : String, Err.wrapf pre e ≠ e := by
  induction e with
  | wrapf p inner ih =>
    intro pre h
    injection h with h1 h2
    exact ih p h2
  | _ => intro pre h; cases h

theorem node_loop_error {α β : Type} (n : node α β) (closed : Bool) (x : α) (post : List α)
    (e : Err) (hx : n.process x = Except.error e) :
    ∀ (pre : List α) (t : Nat) (outs : List (Chan β)), (∀ c ∈ outs, c.closed = false) →
      (∀ y ∈ pre, ∃ r, n.process y = Except.ok r) →
      ∃ outs', node.loop n Ctx.background closed t (pre ++ x :: post) outs
          = some (Exit.ret (some (Err.wrapf n.ID e)), outs')
        ∧ ∀ c ∈ outs', c.closed = false := by
  intro pre
  induction pre with
  | nil =>
    intro t outs hopen _
    have hb : Ctx.background.done t = false := rfl
    exact ⟨outs, by simp [node.loop, hb, hx], hopen⟩
  | cons y pre ih =>
    intro t outs hopen hpre
    obtain ⟨r, hr⟩ := hpre y (List.mem_cons_self _ _)
    have hb : Ctx.background.done t = false := rfl
    have hopen' : ∀ c ∈ outs.map (fun c : Chan β => { c with buf := c.buf ++ [r] }),
        c.closed = false := by
      intro c hc
      obtain ⟨d, hd, rfl⟩ := List.mem_map.1 hc
      exact hopen d hd
    obtain ⟨outs', h1, h2⟩ := ih (t + 1 + outs.length) _ hopen'
      (fun z hz => hpre z (List.mem_cons_of_mem _ hz))
    refine ⟨outs', ?_, h2⟩
    simp only [List.cons_append, node.loop, hb, hr, Broadcast_background r outs (t + 1) hopen,
      Bool.false_eq_true, if_false]
    exact h1

theorem aggregator_loop_error {α : Type} (n : aggregator α) (closed : Bool) (x : α)
    (post : List α) (e : Err) (hx : n.sink x = some e) :
    ∀ (pre : List α) (t : Nat), (∀ y ∈ pre, n.sink y = none) →
      aggregator.loop n Ctx.background closed t (pre ++ x :: post)
        = some (Exit.ret (some (Err.wrapf n.ID e))) := by
  intro pre
  induction pre with
  | nil =>
    intro t _
    have hb : Ctx.background.done t = false := rfl
    simp [aggregator.loop, hb, hx]
  | cons y pre ih =>
    intro t hpre
    have hb : Ctx.background.done t = false := rfl
    have hy := hpre y (List.mem_cons_self _ _)
    simp only [List.cons_append, aggregator.loop, hb, hy, Bool.false_eq_true, if_false]
    exact ih (t + 1) (fun z hz => hpre z (List.mem_cons_of_mem _ hz))

theorem zip_first_row {α : Type} :
    ∀ (chs : List (List α)) (row : List α), chs.map (fun ch => ch[0]?) = row.map some →
      (∀ ch ∈ chs, ch ≠ []) ∧ chs.filterMap List.head? = row := by
  intro chs
  induction chs with
  | nil =>
    intro row h
    cases row with
    | nil => simp
    | cons a row => simp at h
  | cons ch chs ih =>
    intro row h
    cases row with
    | nil => simp at h
    | cons a row =>
      simp only [List.map_cons, List.cons.injEq] at h
      obtain ⟨h1, h2⟩ := ih row h.2
      cases ch with
      | nil => simp at h
      | cons b ch' =>
        have hb : b = a := by simpa using h.1
        subst hb
        refine ⟨?_, by simp [h2]⟩
        intro d hd
        rcases List.mem_cons.1 hd with h3 | h3
        · subst h3; simp
        · exact h1 d h3

theorem zip_next_rows {α : Type} (chs : List (List α)) (i : Nat) :
    (chs.map List.tail).map (fun ch => ch[i]?) = chs.map (fun ch => ch[i + 1]?) := by
  rw [List.map_map]
  apply List.map_congr_left
  intro ch _
  cases ch <;> simp

theorem zip_loop_error {α β : Type} (n : zip α β) (e : Err) :
    ∀ (k fuel t : Nat) (chs : List (List α)) (outs : List (Chan β)) (rowk : List α),
      (∀ c ∈ outs, c.closed = false) → k < fuel →
      (∀ i, i < k → ∃ row r, chs.map (fun ch => ch[i]?) = row.map some
          ∧ n.process row = Except.ok r) →
      chs.map (fun ch => ch[k]?) = rowk.map some → n.process rowk = Except.error e →
      ∃ chs' outs', zip.loop n Ctx.background fuel t chs outs
        = some (Exit.ret (some (Err.wrapf n.ID e)), chs', outs') := by
  intro k
  induction k with
  | zero =>
    intro fuel t chs outs rowk _ hfuel _ hrow hproc
    obtain ⟨fuel', rfl⟩ : ∃ m, fuel = m + 1 := ⟨fuel - 1, by omega⟩
    obtain ⟨hne, hheads⟩ := zip_first_row chs rowk hrow
    have hb : Ctx.background.done t = false := rfl
    exact ⟨chs.map List.tail, outs, by
      simp [zip.loop, hb, zip_readInputs_background_ok chs (t + 1) hne, hheads, hproc]⟩
  | succ k ih =>
    intro fuel t chs outs rowk hopen hfuel hrows hrow hproc
    obtain ⟨fuel', rfl⟩ : ∃ m, fuel = m + 1 := ⟨fuel - 1, by omega⟩
    obtain ⟨row0, r0, hrow0, hproc0⟩ := hrows 0 (by omega)
    obtain ⟨hne, hheads⟩ := zip_first_row chs row0 hrow0
    have hb : Ctx.background.done t = false := rfl
    have hopen' : ∀ c ∈ outs.map (fun c : Chan β => { c with buf := c.buf ++ [r0] }),
        c.closed = false := by
      intro c hc
      obtain ⟨d, hd, rfl⟩ := List.mem_map.1 hc
      exact hopen d hd
    obtain ⟨chs', outs', hrun⟩ := ih fuel' (t + 1 + chs.length + outs.length)
      (chs.map List.tail) _ rowk hopen' (by omega)
      (fun i hi => by
        obtain ⟨row, r, h1, h2⟩ := hrows (i + 1) (by omega)
        exact ⟨row, r, by rw [zip_next_rows]; exact h1, h2⟩)
      (by rw [zip_next_rows]; exact hrow) hproc
    refine ⟨chs', outs', ?_⟩
    simp only [zip.loop, hb, zip_readInputs_background_ok chs (t + 1) hne, hheads, hproc0,
      Broadcast_background r0 outs _ hopen, Bool.false_eq_true, if_false]
    exact hrun

/-- C7, as stated, fails for the worker pool, the token never firing.  With one worker and
the input 1, `process` failing on 1: the worker receives 1, fails, reports and returns, the
waiting task closes `done`, and the select of `Run`, with the error and `done` both ready,
takes `done`: `Run` returns `nil` while the error sits in the error conduit.  With two workers
whose `process` fails with "first" on 1 and "second" on 2: both report, `Run` returns the
wrapped "first", and "second" is never surfaced. -/
theorem workerPool_run_drops_process_error :
    (poolFailingOn 1 [1]).process 1 = Except.error (Err.user "boom")
    ∧ ((poolFailingOn 1 [1]).runSchedule
        [PoolAction.work 0, PoolAction.work 0, PoolAction.work 0, PoolAction.wait,
         PoolAction.retDone]).map (fun s => s.result) = some (some none)
    ∧ ((poolFailingOn 1 [1]).runSchedule
        [PoolAction.work 0, PoolAction.work 0, PoolAction.work 0, PoolAction.wait,
         PoolAction.retDone]).map (fun s => s.errChan) = some [Err.user "boom"]
    ∧ ((poolFailingOn 1 [1]).runSchedule
        [PoolAction.work 0, PoolAction.work 0, PoolAction.work 0, PoolAction.wait,
         PoolAction.retDone]).map (fun s => (s.ctxDone, s.panicked)) = some (false, false)
    ∧ poolAlwaysFailing.process 2 = Except.error (Err.user "second")
    ∧ (poolAlwaysFailing.runSchedule
        [PoolAction.work 0, PoolAction.work 1, PoolAction.work 0, PoolAction.work 1,
         PoolAction.work 0, PoolAction.work 1, PoolAction.retErr]).map (fun s => s.result)
      = some (some (some (Err.wrapf "worker-pool-node-1" (Err.user "first"))))
    ∧ (poolAlwaysFailing.runSchedule
        [PoolAction.work 0, PoolAction.work 1, PoolAction.work 0, PoolAction.work 1,
         PoolAction.work 0, PoolAction.work 1, PoolAction.retErr]).map (fun s => s.errChan)
      = some [Err.user "second"]
    ∧ (poolAlwaysFailing.runSchedule
        [PoolAction.work 0, PoolAction.work 1, PoolAction.work 0, PoolAction.work 1,
         PoolAction.work 0, PoolAction.work 1, PoolAction.retErr]).map (fun s => s.ctxDone)
      = some false :=
  ⟨rfl, by decide, by decide, by decide, rfl, by decide, by decide, by decide⟩

/-- C7, amended: the error made by `fmt.Errorf("%s: %w", id, e)` has the message of `id`
followed by ": " and the message of `e`, unwraps to `e` and is not `e`; and with a token that
never fires and open outputs, the basic transform, aggregator, generator and zip stages return
exactly that error, with their own `ID()`, for the first error `e` their user function
returns.  For the worker pool, under every schedule, an error that `Run` returns is the error
of the fired token or such a wrapping, with the pool's `ID()`, of an error that `process`
returned on a value of the input; the error case of the select of `Run` returns the oldest
reported error. -/
theorem user_error_is_wrapped {α β : Type} :
    (∀ (id : String) (e : Err),
        (Err.wrapf id e).Error = id ++ ": " ++ e.Error
        ∧ (Err.wrapf id e).Unwrap = some e ∧ Err.wrapf id e ≠ e)
    ∧ (∀ (n : node α β) (acts : List FanInAction) (s0 : FanInState α)
        (pre : List α) (x : α) (post : List α) (e : Err),
        n.isRunning = false → FanIn n.ins n.config.InBuffer = (some s0, none) →
        (∀ c ∈ n.out, c.closed = false) →
        (s0.exec acts).delivered = pre ++ x :: post →
        (∀ y ∈ pre, ∃ r, n.process y = Except.ok r) → n.process x = Except.error e →
        ∃ n', node.Run n Ctx.background acts
          = some (Exit.ret (some (Err.wrapf n.ID e)), n'))
    ∧ (∀ (a : aggregator α) (acts : List FanInAction) (s0 : FanInState α)
        (pre : List α) (x : α) (post : List α) (e : Err),
        FanIn a.ins a.config.InBuffer = (some s0, none) →
        (s0.exec acts).delivered = pre ++ x :: post →
        (∀ y ∈ pre, a.sink y = none) → a.sink x = some e →
        ∃ a', aggregator.Run a Ctx.background acts
          = some (Exit.ret (some (Err.wrapf a.ID e)), a'))
    ∧ (∀ (g : generator β) (ctx : Ctx) (e : Err),
        g.generate ctx = Except.error e → (∀ c ∈ g.out, c.closed = false) →
        (g.Run ctx).1 = Exit.ret (some (Err.wrapf g.ID e)))
    ∧ (∀ (z : zip α β) (k fuel : Nat) (rowk : List α) (e : Err),
        1 ≤ z.ins.length → (∀ c ∈ z.out, c.closed = false) → k < fuel →
        (∀ i, i < k → ∃ row r, z.ins.map (fun ch => ch[i]?) = row.map some
            ∧ z.process row = Except.ok r) →
        z.ins.map (fun ch => ch[k]?) = rowk.map some → z.process rowk = Except.error e →
        ∃ z', zip.Run z Ctx.background fuel
          = some (Exit.ret (some (Err.wrapf z.ID e)), z'))
    ∧ (∀ (n : workerPool α β) (input : List α) (acts : List PoolAction)
        (s : PoolState α β) (r : Err),
        n.ins = some input → n.runSchedule acts = some s → s.result = some (some r) →
        (r = s.ctxErr ∧ s.ctxDone = true)
        ∨ ∃ e x, x ∈ input ∧ n.process x = Except.error e ∧ r = Err.wrapf n.ID e)
    ∧ (∀ (n : workerPool α β) (s : PoolState α β) (e : Err) (rest : List Err),
        s.result = none → s.errChan = e :: rest →
        ∃ s', s.step n PoolAction.retErr = some s'
          ∧ s'.result = some (some (Err.wrapf n.ID e))) := by
  refine ⟨fun id e => ⟨rfl, rfl, Err.wrapf_ne e id⟩, ?_, ?_, ?_, ?_, ?_, ?_⟩
  · intro n acts s0 pre x post e hidle hs0 hopen hdel hpre hx
    obtain ⟨outs', hloop, hopen'⟩ :=
      node_loop_error n (s0.exec acts).closed x post e hx pre 0 n.out hopen hpre
    obtain ⟨c1, c2⟩ := CloseChannels_open outs' hopen'
    rcases hc : CloseChannels outs' with ⟨ok, oc⟩
    rw [hc] at c1
    simp only at c1
    simp only [node.Run, hidle, hs0, hdel, hloop, hc, c1, Bool.false_eq_true, if_false, if_true]
    exact ⟨_, rfl⟩
  · intro a acts s0 pre x post e hs0 hdel hpre hx
    have hloop := aggregator_loop_error a (s0.exec acts).closed x post e hx pre 0 hpre
    simp only [aggregator.Run, hs0, hdel, hloop]
    exact ⟨_, rfl⟩
  · intro g ctx e hg hopen
    obtain ⟨c1, c2⟩ := CloseChannels_open g.out hopen
    rcases hc : CloseChannels g.out with ⟨ok, oc⟩
    rw [hc] at c1
    simp only at c1
    simp [generator.Run, hg, hc, c1]
  · intro z k fuel rowk e hin hopen hfuel hrows hrow hproc
    obtain ⟨chs', outs', hrun⟩ :=
      zip_loop_error z e k fuel 0 z.ins z.out rowk hopen hfuel hrows hrow hproc
    have h0 : ¬ z.ins.length = 0 := by omega
    simp only [zip.Run, h0, hrun, if_false]
    exact ⟨_, rfl⟩
  · intro n input acts s r hin hrun hres
    unfold workerPool.runSchedule at hrun
    cases hs : workerPool.start n with
    | none => simp [hs] at hrun
    | some s0 =>
      simp only [hs, Option.map_some', Option.some.injEq] at hrun
      have hinv := pool_exec_inv n input acts s0 (pool_start_inv n input s0 hin hs)
      rw [hrun] at hinv
      exact hinv.res r hres
  · intro n s e rest hres herr
    simp only [PoolState.step, hres, herr]
    refine ⟨_, rfl, ?_⟩
    simp only [PoolState.ret]
    split_ifs <;> rfl

/-- C7, amended, at a transform stage failing on 2 fed 1, 2; an aggregator failing on 2 fed
1, 2; a generator whose factory fails; and a zip stage whose combine fails on its second row. -/
theorem user_error_is_wrapped_witness :
    (∃ n', node.Run (α := Nat) (β := Nat)
        { id := 1, ins := [[1, 2]], out := [⟨10, [], false⟩],
          process := fun x => if x = 2 then Except.error (Err.user "boom") else Except.ok x,
          isRunning := false, config := DefaultConfig } Ctx.background
        [FanInAction.forward 0, FanInAction.forward 0, FanInAction.forward 0,
         FanInAction.forward 0]
        = some (Exit.ret (some (Err.wrapf "node-1" (Err.user "boom"))), n'))
    ∧ (∃ a', aggregator.Run (α := Nat)
        { id := 2, ins := [[1, 2]],
          sink := fun x => if x = 2 then some (Err.user "boom") else none,
          config := DefaultConfig } Ctx.background
        [FanInAction.forward 0, FanInAction.forward 0, FanInAction.forward 0,
         FanInAction.forward 0]
        = some (Exit.ret (some (Err.wrapf "result-aggregator-node-2" (Err.user "boom"))), a'))
    ∧ (generator.Run (β := Nat)
        { id := 3, out := [⟨1, [], false⟩],
          generate := fun _ => Except.error (Err.user "boom") }
        Ctx.background).1 = Exit.ret (some (Err.wrapf "generator-node-3" (Err.user "boom")))
    ∧ (∃ z', zip.Run (α := Nat) (β := Nat)
        { id := 4, ins := [[1, 2], [10, 20]], out := [⟨10, [], false⟩],
          process := fun xs => if xs.sum = 22 then Except.error (Err.user "boom")
                               else Except.ok xs.sum,
          config := DefaultConfig } Ctx.background 2
        = some (Exit.ret (some (Err.wrapf "zip-node-4" (Err.user "boom"))), z')) :=
  ⟨(user_error_is_wrapped (α := Nat) (β := Nat)).2.1
      { id := 1, ins := [[1, 2]], out := [⟨10, [], false⟩],
        process := fun x => if x = 2 then Except.error (Err.user "boom") else Except.ok x,
        isRunning := false, config := DefaultConfig }
      [FanInAction.forward 0, FanInAction.forward 0, FanInAction.forward 0,
       FanInAction.forward 0] _ [1] 2 [] (Err.user "boom") rfl rfl (by decide) (by decide)
      (by intro y hy; exact ⟨1, by simp at hy; subst hy; rfl⟩) rfl,
   (user_error_is_wrapped (α := Nat) (β := Nat)).2.2.1
      { id := 2, ins := [[1, 2]],
        sink := fun x => if x = 2 then some (Err.user "boom") else none,
        config := DefaultConfig }
      [FanInAction.forward 0, FanInAction.forward 0, FanInAction.forward 0,
       FanInAction.forward 0] _ [1] 2 [] (Err.user "boom") rfl (by decide) (by decide) rfl,
   (user_error_is_wrapped (α := Nat) (β := Nat)).2.2.2.1
      { id := 3, out := [⟨1, [], false⟩], generate := fun _ => Except.error (Err.user "boom") }
      Ctx.background (Err.user "boom") rfl (by decide),
   (user_error_is_wrapped (α := Nat) (β := Nat)).2.2.2.2.1
      { id := 4, ins := [[1, 2], [10, 20]], out := [⟨10, [], false⟩],
        process := fun xs => if xs.sum = 22 then Except.error (Err.user "boom")
                             else Except.ok xs.sum,
        config := DefaultConfig } 1 2 [2, 20] (Err.user "boom") (by decide) (by decide)
      (by decide)
      (by intro i hi
          have h0 : i = 0 := by omega
          subst h0
          exact ⟨[1, 10], 11, rfl, rfl⟩)
      rfl rfl⟩

/-! ### Wiring -/

theorem connectFromMany_outputs_length {α μ : Type} :
    ∀ (sources : List (Node α μ)) (outs : List (Chan μ)) (sources' : List (Node α μ)),
      ConnectFromMany.outputs sources = some (none, outs, sources') →
      outs.length = sources.length := by
  intro sources
  induction sources with
  | nil =>
    intro outs sources' h
    simp only [ConnectFromMany.outputs, Option.some.injEq, Prod.mk.injEq] at h
    rw [← h.2.1]
    rfl
  | cons source rest ih =>
    intro outs sources' h
    simp only [ConnectFromMany.outputs] at h
    split at h
    · cases h
    · simp at h
    · cases h
    · split at h
      · cases h
      · rename_i e outs1 rest1 hrest
        simp only [Option.some.injEq, Prod.mk.injEq] at h
        obtain ⟨h1, h2, _⟩ := h
        subst h1
        rw [← h2]
        simp [ih outs1 rest1 hrest]

theorem connectFromMany_outputs_all {α μ : Type} :
    ∀ sources : List (Node α μ), (∀ src ∈ sources, ∃ src', src.outputGives src') →
      ∃ outs sources', ConnectFromMany.outputs sources = some (none, outs, sources')
        ∧ List.Forall₂ Node.outputGives sources sources' := by
  intro sources
  induction sources with
  | nil => intro _; exact ⟨[], [], rfl, List.Forall₂.nil⟩
  | cons src rest ih =>
    intro h
    obtain ⟨src', out, hout⟩ := h src (List.mem_cons_self _ _)
    obtain ⟨outs, rest', hrest, hall⟩ := ih (fun q hq => h q (List.mem_cons_of_mem _ hq))
    exact ⟨out :: outs, src' :: rest', by simp [ConnectFromMany.outputs, hout, hrest],
      List.Forall₂.cons ⟨out, hout⟩ hall⟩

theorem connectFromMany_outputs_first_error {α μ : Type} (src src' : Node α μ)
    (post : List (Node α μ)) (c : Option (Chan μ)) (err : Err)
    (hsrc : src.Output = some (c, some err, src')) :
    ∀ pre : List (Node α μ), (∀ q ∈ pre, ∃ q', q.outputGives q') →
      ∃ outs pre', ConnectFromMany.outputs (pre ++ src :: post)
          = some (some err, outs, pre' ++ src' :: post)
        ∧ List.Forall₂ Node.outputGives pre pre' := by
  intro pre
  induction pre with
  | nil =>
    intro _
    exact ⟨[], [], by simp [ConnectFromMany.outputs, hsrc], List.Forall₂.nil⟩
  | cons q pre ih =>
    intro h
    obtain ⟨q', out, hout⟩ := h q (List.mem_cons_self _ _)
    obtain ⟨outs, pre', hrest, hall⟩ := ih (fun x hx => h x (List.mem_cons_of_mem _ hx))
    exact ⟨out :: outs, q' :: pre', by simp [ConnectFromMany.outputs, hout, hrest],
      List.Forall₂.cons ⟨out, hout⟩ hall⟩

theorem connectFromMany_outputs_returns {α μ : Type} :
    ∀ sources : List (Node α μ), (∀ src ∈ sources, src.outputReturns) →
      (ConnectFromMany.outputs sources).isSome = true := by
  intro sources
  induction sources with
  | nil => intro _; rfl
  | cons src rest ih =>
    intro h
    obtain ⟨c, e, src', hout, hce⟩ := h src (List.mem_cons_self _ _)
    have hrest := ih (fun q hq => h q (List.mem_cons_of_mem _ hq))
    obtain ⟨q, hq⟩ := Option.isSome_iff_exists.1 hrest
    cases e with
    | some err => simp [ConnectFromMany.outputs, hout]
    | none =>
      cases c with
      | none => simp at hce
      | some out => simp [ConnectFromMany.outputs, hout, hq]

/-- C9, as stated, fails: many-to-one wiring of two sources into a worker pool returns the
error of the first source whose `Output` fails, not `ErrOnlyOneInput`: `ErrHasNoOutput` for two
aggregators and for an aggregator followed by a running transform stage, and
`ErrAccessRunningNode` for a running transform stage followed by an aggregator. -/
theorem connectFromMany_pool_source_error :
    (ConnectFromMany (α := Nat) (μ := Nat) (γ := Nat)
        [Node.agg { id := 1, ins := [], sink := fun _ => none, config := DefaultConfig },
         Node.agg { id := 2, ins := [], sink := fun _ => none, config := DefaultConfig }]
        (Node.pool (NewWorkerPool 3 (fun x => Except.ok x) []))).map (fun r => r.1)
      = some (some Err.ErrHasNoOutput)
    ∧ (ConnectFromMany (α := Nat) (μ := Nat) (γ := Nat)
        [Node.agg { id := 1, ins := [], sink := fun _ => none, config := DefaultConfig },
         Node.basic { id := 2, ins := [], out := [], process := fun x => Except.ok x,
                      isRunning := true, config := DefaultConfig }]
        (Node.pool (NewWorkerPool 3 (fun x => Except.ok x) []))).map (fun r => r.1)
      = some (some Err.ErrHasNoOutput)
    ∧ (ConnectFromMany (α := Nat) (μ := Nat) (γ := Nat)
        [Node.basic { id := 2, ins := [], out := [], process := fun x => Except.ok x,
                      isRunning := true, config := DefaultConfig },
         Node.agg { id := 1, ins := [], sink := fun _ => none, config := DefaultConfig }]
        (Node.pool (NewWorkerPool 3 (fun x => Except.ok x) []))).map (fun r => r.1)
      = some (some Err.ErrAccessRunningNode) := by
  decide

/-- C9, amended: `SetInput` on a worker pool with a number of conduits other than one (zero
included) returns `ErrOnlyOneInput` and leaves the stage as it was, and with one conduit it
succeeds and makes that conduit the input.  Many-to-one wiring of two or more sources into a
worker pool returns whenever the `Output` of every source returns (none panics); whenever it
returns, it returns an error and leaves the pool as it was; when the `Output` of every source
succeeds it returns `ErrOnlyOneInput`, every source having made its new output; and when the
`Output` of a source fails with an error and that of every source before it succeeds, it
returns that error, the sources before having made their new output and the sources after
being untouched. -/
theorem workerPool_setInput_exactly_one {α μ γ : Type} (n : workerPool μ γ) :
    (∀ chs : List (List μ), chs.length ≠ 1 → n.SetInput chs = (some Err.ErrOnlyOneInput, n))
    ∧ (∀ ch : List μ, n.SetInput [ch] = (none, { n with ins := some ch }))
    ∧ (∀ sources : List (Node α μ), 2 ≤ sources.length →
        (∀ r, ConnectFromMany sources (Node.pool n) = some r →
            r.1 ≠ none ∧ r.2.2 = Node.pool n)
        ∧ (∀ outs sources', ConnectFromMany.outputs sources = some (none, outs, sources') →
            ConnectFromMany sources (Node.pool n)
              = some (some Err.ErrOnlyOneInput, sources', Node.pool n))
        ∧ ((∀ src ∈ sources, src.outputReturns) →
            (ConnectFromMany sources (Node.pool n)).isSome = true)
        ∧ ((∀ src ∈ sources, ∃ src', src.outputGives src') →
            ∃ sources', ConnectFromMany sources (Node.pool n)
                = some (some Err.ErrOnlyOneInput, sources', Node.pool n)
              ∧ List.Forall₂ Node.outputGives sources sources')
        ∧ (∀ (pre : List (Node α μ)) (src : Node α μ) (post : List (Node α μ))
            (c : Option (Chan μ)) (err : Err) (src' : Node α μ),
            sources = pre ++ src :: post → (∀ q ∈ pre, ∃ q', q.outputGives q') →
            src.Output = some (c, some err, src') →
            ∃ pre', ConnectFromMany sources (Node.pool n)
                = some (some err, pre' ++ src' :: post, Node.pool n)
              ∧ List.Forall₂ Node.outputGives pre pre')) := by
  have hset : ∀ chs : List (List μ), chs.length ≠ 1 →
      n.SetInput chs = (some Err.ErrOnlyOneInput, n) := by
    intro chs h
    match chs, h with
    | [], _ => rfl
    | [_], h => simp at h
    | _ :: _ :: _, _ => rfl
  have hmany : ∀ (sources : List (Node α μ)) (outs : List (Chan μ))
      (sources' : List (Node α μ)), 2 ≤ sources.length →
      ConnectFromMany.outputs sources = some (none, outs, sources') →
      ConnectFromMany sources (Node.pool n)
        = some (some Err.ErrOnlyOneInput, sources', Node.pool n) := by
    intro sources outs sources' h2 ho
    have hlen := connectFromMany_outputs_length sources outs sources' ho
    have hne : (outs.map Chan.receiveEnd).length ≠ 1 := by simp [hlen]; omega
    simp [ConnectFromMany, ho, Node.SetInput, hset _ hne]
  refine ⟨hset, fun ch => rfl, ?_⟩
  intro sources h2
  refine ⟨?_, fun outs sources' ho => hmany sources outs sources' h2 ho, ?_, ?_, ?_⟩
  · intro r hr
    cases ho : ConnectFromMany.outputs sources with
    | none => simp [ConnectFromMany, ho] at hr
    | some q =>
      obtain ⟨e, outs, sources'⟩ := q
      cases e with
      | some err =>
        simp only [ConnectFromMany, ho, Option.some.injEq] at hr
        subst hr
        exact ⟨by simp, rfl⟩
      | none =>
        rw [hmany sources outs sources' h2 ho] at hr
        simp only [Option.some.injEq] at hr
        subst hr
        exact ⟨by simp, rfl⟩
  · intro hret
    obtain ⟨q, hq⟩ := Option.isSome_iff_exists.1 (connectFromMany_outputs_returns sources hret)
    obtain ⟨e, outs, sources'⟩ := q
    cases e with
    | some err => simp [ConnectFromMany, hq]
    | none => simp [ConnectFromMany, hq]
  · intro hall
    obtain ⟨outs, sources', ho, hf⟩ := connectFromMany_outputs_all sources hall
    exact ⟨sources', hmany sources outs sources' h2 ho, hf⟩
  · intro pre src post c err src' hsplit hpre hsrc
    obtain ⟨outs, pre', ho, hf⟩ :=
      connectFromMany_outputs_first_error src src' post c err hsrc pre hpre
    refine ⟨pre', ?_, hf⟩
    rw [hsplit]
    simp [ConnectFromMany, ho]

/-- C9, amended, at a pool given no conduit; at two idle transform stages wired into it
(`ErrOnlyOneInput`); and at an idle transform stage, an aggregator and a running transform
stage wired into it: the aggregator is the first source whose `Output` fails, and its
`ErrHasNoOutput` is returned, not the `ErrAccessRunningNode` of the source after it; and an
idle transform stage and an aggregator, whose `Output` calls both return, so the wiring
returns. -/
theorem workerPool_setInput_exactly_one_witness :
    (NewWorkerPool 3 (fun x : Nat => (Except.ok x : Except Err Nat)) []).SetInput []
      = (some Err.ErrOnlyOneInput, NewWorkerPool 3 (fun x => Except.ok x) [])
    ∧ ConnectFromMany (α := Nat)
        [Node.basic { id := 1, ins := [], out := [], process := fun x => Except.ok x,
                      isRunning := false, config := DefaultConfig },
         Node.basic { id := 2, ins := [], out := [], process := fun x => Except.ok x,
                      isRunning := false, config := DefaultConfig }]
        (Node.pool (NewWorkerPool 3 (fun x : Nat => (Except.ok x : Except Err Nat)) []))
      = some (some Err.ErrOnlyOneInput,
          [Node.basic { id := 1, ins := [], out := [⟨10, [], false⟩],
                        process := fun x => Except.ok x,
                        isRunning := false, config := DefaultConfig },
           Node.basic { id := 2, ins := [], out := [⟨10, [], false⟩],
                        process := fun x => Except.ok x,
                        isRunning := false, config := DefaultConfig }],
          Node.pool (NewWorkerPool 3 (fun x => Except.ok x) []))
    ∧ (∃ pre', ConnectFromMany (α := Nat)
        [Node.basic { id := 1, ins := [], out := [], process := fun x => Except.ok x,
                      isRunning := false, config := DefaultConfig },
         Node.agg { id := 2, ins := [], sink := fun _ => none, config := DefaultConfig },
         Node.basic { id := 4, ins := [], out := [], process := fun x => Except.ok x,
                      isRunning := true, config := DefaultConfig }]
        (Node.pool (NewWorkerPool 3 (fun x : Nat => (Except.ok x : Except Err Nat)) []))
      = some (some Err.ErrHasNoOutput,
          pre' ++ [Node.agg { id := 2, ins := [], sink := fun _ => none,
                              config := DefaultConfig },
                   Node.basic { id := 4, ins := [], out := [], process := fun x => Except.ok x,
                                isRunning := true, config := DefaultConfig }],
          Node.pool (NewWorkerPool 3 (fun x => Except.ok x) []))
      ∧ List.Forall₂ Node.outputGives
          [Node.basic { id := 1, ins := [], out := [], process := fun x => Except.ok x,
                        isRunning := false, config := DefaultConfig }] pre')
    ∧ (ConnectFromMany (α := Nat)
        [Node.basic { id := 1, ins := [], out := [], process := fun x => Except.ok x,
                      isRunning := false, config := DefaultConfig },
         Node.agg { id := 2, ins := [], sink := fun _ => none, config := DefaultConfig }]
        (Node.pool (NewWorkerPool 3 (fun x : Nat => (Except.ok x : Except Err Nat))
          []))).isSome = true :=
  ⟨(workerPool_setInput_exactly_one (α := Nat)
      (NewWorkerPool 3 (fun x : Nat => (Except.ok x : Except Err Nat)) [])).1 [] (by decide),
   ((workerPool_setInput_exactly_one (α := Nat)
      (NewWorkerPool 3 (fun x : Nat => (Except.ok x : Except Err Nat)) [])).2.2 _
      (by decide)).2.1 [⟨10, [], false⟩, ⟨10, [], false⟩] _ rfl,
   ((workerPool_setInput_exactly_one (α := Nat)
      (NewWorkerPool 3 (fun x : Nat => (Except.ok x : Except Err Nat)) [])).2.2
      [Node.basic { id := 1, ins := [], out := [], process := fun x => Except.ok x,
                    isRunning := false, config := DefaultConfig },
       Node.agg { id := 2, ins := [], sink := fun _ => none, config := DefaultConfig },
       Node.basic { id := 4, ins := [], out := [], process := fun x => Except.ok x,
                    isRunning := true, config := DefaultConfig }]
      (by decide)).2.2.2.2
      [Node.basic { id := 1, ins := [], out := [], process := fun x => Except.ok x,
                    isRunning := false, config := DefaultConfig }]
      (Node.agg { id := 2, ins := [], sink := fun _ => none, config := DefaultConfig })
      [Node.basic { id := 4, ins := [], out := [], process := fun x => Except.ok x,
                    isRunning := true, config := DefaultConfig }]
      none Err.ErrHasNoOutput
      (Node.agg { id := 2, ins := [], sink := fun _ => none, config := DefaultConfig })
      rfl
      (by
        intro q hq
        rw [List.mem_singleton.1 hq]
        exact ⟨Node.basic { id := 1, ins := [], out := [⟨10, [], false⟩],
                            process := fun x => Except.ok x,
                            isRunning := false, config := DefaultConfig },
          ⟨10, [], false⟩, rfl⟩)
      rfl,
   ((workerPool_setInput_exactly_one (α := Nat)
      (NewWorkerPool 3 (fun x : Nat => (Except.ok x : Except Err Nat)) [])).2.2
      [Node.basic { id := 1, ins := [], out := [], process := fun x => Except.ok x,
                    isRunning := false, config := DefaultConfig },
       Node.agg { id := 2, ins := [], sink := fun _ => none, config := DefaultConfig }]
      (by decide)).2.2.1
      (by
        intro q hq
        rcases List.mem_cons.1 hq with h | h
        · rw [h]
          exact ⟨some ⟨10, [], false⟩, none, _, rfl, Or.inl rfl⟩
        · rw [List.mem_singleton.1 h]
          exact ⟨none, some Err.ErrHasNoOutput, _, rfl, Or.inr rfl⟩)⟩

/-- C11: `Output` on a worker pool that already has an output conduit does not fail: it
returns a fresh conduit and no error, and the stage's output is now the fresh conduit, the
earlier one (which held 7) being dropped.  One-to-many wiring of a new worker pool to two
aggregators returns no error, gives each aggregator an input conduit, and leaves the pool with
a single output conduit. -/
theorem workerPool_output_replaces_silently :
    poolWithOutput.Output.map (fun r => (r.1, r.2.1))
      = some (some { cap := 10, buf := [], closed := false }, none)
    ∧ poolWithOutput.Output.map (fun r => r.2.2.out)
      = some (some { cap := 10, buf := [], closed := false })
    ∧ (ConnectToMany (α := Nat) (γ := Nat)
        (Node.pool (NewWorkerPool 1 (fun x : Nat => (Except.ok x : Except Err Nat)) []))
        [Node.agg { id := 2, ins := [], sink := fun _ => none, config := DefaultConfig },
         Node.agg { id := 3, ins := [], sink := fun _ => none, config := DefaultConfig }]).map
        (fun r => r.1) = some none
    ∧ (ConnectToMany (α := Nat) (γ := Nat)
        (Node.pool (NewWorkerPool 1 (fun x : Nat => (Except.ok x : Except Err Nat)) []))
        [Node.agg { id := 2, ins := [], sink := fun _ => none, config := DefaultConfig },
         Node.agg { id := 3, ins := [], sink := fun _ => none, config := DefaultConfig }]).map
        (fun r => r.2.2.map Node.inputs) = some [[[]], [[]]]
    ∧ (ConnectToMany (α := Nat) (γ := Nat)
        (Node.pool (NewWorkerPool 1 (fun x : Nat => (Except.ok x : Except Err Nat)) []))
        [Node.agg { id := 2, ins := [], sink := fun _ => none, config := DefaultConfig },
         Node.agg { id := 3, ins := [], sink := fun _ => none, config := DefaultConfig }]).map
        (fun r => r.2.1.outputs) = some [{ cap := 10, buf := [], closed := false }] := by
  decide

/-! ### Run-state guard of the basic transform stage -/

/-- C10, as stated, fails: on an idle stage whose `config.Buffer` is negative, `Output` panics
in `make` and appends no conduit. -/
theorem node_output_negative_buffer_panics :
    (node.Output (α := Nat) (β := Nat)
        { id := 1, ins := [], out := [], process := fun x => Except.ok x, isRunning := false,
          config := { InBuffer := 0, Buffer := -1, Workers := 10 } }).isNone = true := by
  decide

/-- C10, amended: on a running basic transform stage `SetInput` returns
`ErrAccessRunningNode`, `Output` returns `ErrAccessRunningNode` and no conduit, `Run` returns
`ErrNodeRunning`, and each leaves the stage (inputs, outputs, run-state flag, every conduit) as
it was.  On an idle stage `SetInput` appends the given conduits in order, and `Output`, when
`config.Buffer` is not negative, returns one new open empty conduit of capacity
`config.Buffer` and appends it to the outputs. -/
theorem node_run_state_guard {α β : Type} (n : node α β) :
    (n.isRunning = true →
        (∀ chs, n.SetInput chs = (some Err.ErrAccessRunningNode, n))
        ∧ n.Output = some (none, some Err.ErrAccessRunningNode, n)
        ∧ ∀ ctx acts, node.Run n ctx acts = some (Exit.ret (some Err.ErrNodeRunning), n))
    ∧ (n.isRunning = false →
        (∀ chs, n.SetInput chs = (none, { n with ins := n.ins ++ chs }))
        ∧ (0 ≤ n.config.Buffer →
            n.Output = some (some { cap := n.config.Buffer, buf := [], closed := false }, none,
              { n with out := n.out ++ [{ cap := n.config.Buffer, buf := [],
                                          closed := false }] }))) := by
  constructor
  · intro h
    exact ⟨fun chs => by simp [node.SetInput, h], by simp [node.Output, h],
      fun ctx acts => by simp [node.Run, h]⟩
  · intro h
    refine ⟨fun chs => by simp [node.SetInput, h], ?_⟩
    intro hb
    have hb' : ¬ n.config.Buffer < 0 := by omega
    simp [node.Output, h, makeChan, hb']

/-- C10, amended, at a running stage (`Run` rejected) and at an idle stage with the default
configuration (`Output` appends a conduit of capacity 10). -/
theorem node_run_state_guard_witness :
    node.Run (α := Nat) (β := Nat)
        { id := 1, ins := [[1]], out := [⟨10, [], false⟩], process := fun x => Except.ok x,
          isRunning := true, config := DefaultConfig } Ctx.background []
      = some (Exit.ret (some Err.ErrNodeRunning),
          { id := 1, ins := [[1]], out := [⟨10, [], false⟩], process := fun x => Except.ok x,
            isRunning := true, config := DefaultConfig })
    ∧ node.Output (α := Nat) (β := Nat)
        { id := 1, ins := [[1]], out := [⟨10, [], false⟩], process := fun x => Except.ok x,
          isRunning := false, config := DefaultConfig }
      = some (some ⟨10, [], false⟩, none,
          { id := 1, ins := [[1]], out := [⟨10, [], false⟩, ⟨10, [], false⟩],
            process := fun x => Except.ok x, isRunning := false, config := DefaultConfig }) :=
  ⟨((node_run_state_guard (α := Nat) (β := Nat)
        { id := 1, ins := [[1]], out := [⟨10, [], false⟩], process := fun x => Except.ok x,
          isRunning := true, config := DefaultConfig }).1 rfl).2.2 Ctx.background [],
   ((node_run_state_guard (α := Nat) (β := Nat)
        { id := 1, ins := [[1]], out := [⟨10, [], false⟩], process := fun x => Except.ok x,
          isRunning := false, config := DefaultConfig }).2 rfl).2 (by decide)⟩

/-! ### Pipeline -/

theorem pipe_init_inv (p : pipeline) : PipeInv p [] p.start := by
  refine ⟨by simp [pipeline.start], rfl, ?_, ?_, rfl, by simp [pipeline.start],
    by simp [pipeline.start], by simp [pipeline.start]⟩
  · simp only [pipeline.start, List.map_map]
    induction p.nodes with
    | nil => rfl
    | cons a l ih => simp at ih ⊢; omega
  · intro i h
    simp only [pipeline.start, List.getElem?_map] at h
    cases hi : p.nodes[i]? <;> simp [hi] at h

theorem pipe_stage_inv (p : pipeline) (acts : List PipeAction) (s : PipeState) (i : Nat)
    (errs' : List Err) (c : Bool) (hinv : PipeInv p acts s) (hr : s.running[i]? = some true)
    (herr : errs' = s.errChan ++ ((PipeAction.err p (PipeAction.stage i)).toList)) :
    PipeInv p (acts ++ [PipeAction.stage i])
      { s with running := s.running.set i false, wg := s.wg - 1, errChan := errs',
               cancelled := c } := by
  have hge : 1 ≤ s.wg := by
    have := le_sum_map_of_getElem? (fun b : Bool => if b then 1 else 0) s.running i true hr
    rw [hinv.wg]
    simpa using this
  have hsum := sum_map_set (fun b : Bool => if b then 1 else 0) s.running i true false hr
  have hwg := hinv.wg
  have hres : s.result = none := by
    cases h : s.result with
    | none => rfl
    | some r => have := (hinv.res r h).1; omega
  have hlen : errs'.length ≤ s.errChan.length + 1 := by
    rw [herr]
    cases PipeAction.err p (PipeAction.stage i) <;> simp
  refine ⟨by simp [hinv.len], hinv.cap, ?_, ?_, ?_, ?_, ?_, ?_⟩
  · simp only [Bool.false_eq_true, if_false, if_true, Nat.add_zero] at hsum ⊢
    omega
  · intro j hj
    by_cases hji : j = i
    · subst hji; simp
    · simp only [List.getElem?_set_ne (Ne.symm hji)] at hj
      exact List.mem_append_left _ (hinv.fin j hj)
  · simp only [herr, hinv.errs, List.filterMap_append]
    congr 1
  · have := hinv.room
    simp only
    omega
  · have := hinv.steps
    simp only [hres, List.length_append, List.length_singleton] at this ⊢
    omega
  · intro r h
    simp only [hres] at h
    cases h

theorem pipe_step_inv (p : pipeline) (acts : List PipeAction) (s s' : PipeState)
    (a : PipeAction) (hinv : PipeInv p acts s) (hstep : s.step p a = some s') :
    PipeInv p (acts ++ [a]) s' := by
  cases a with
  | ret =>
    simp only [PipeState.step] at hstep
    split_ifs at hstep with hwg
    cases hres : s.result with
    | some r => simp [hres] at hstep
    | none =>
      simp only [hres, Option.some.injEq] at hstep
      subst hstep
      refine ⟨hinv.len, hinv.cap, hinv.wg, fun j hj => List.mem_append_left _ (hinv.fin j hj),
        ?_, hinv.room, ?_, ?_⟩
      · simp [hinv.errs, PipeAction.err]
      · have := hinv.steps
        simp only [hres, hwg, List.length_append, List.length_singleton] at this ⊢
        simpa using this
      · intro r h
        simp only [Option.some.injEq] at h
        exact ⟨hwg, h.symm⟩
  | stage i =>
    simp only [PipeState.step] at hstep
    cases hr : s.running[i]? with
    | none => simp [hr] at hstep
    | some b =>
      cases b with
      | false => simp [hr] at hstep
      | true =>
        have hge : 1 ≤ s.wg := by
          have := le_sum_map_of_getElem? (fun b : Bool => if b then 1 else 0) s.running i true hr
          rw [hinv.wg]
          simpa using this
        cases ho : p.nodes[i]? with
        | none => simp [hr, ho] at hstep
        | some o =>
          cases o with
          | none =>
            simp only [hr, ho, Option.some.injEq] at hstep
            subst hstep
            exact pipe_stage_inv p acts s i s.errChan s.cancelled hinv hr
              (by simp [PipeAction.err, ho])
          | some err =>
            have hroom : s.errChan.length < s.errCap := by
              have := hinv.room
              rw [hinv.cap]
              omega
            simp only [hr, ho, hroom, if_true, Option.some.injEq] at hstep
            subst hstep
            exact pipe_stage_inv p acts s i (s.errChan ++ [err]) true hinv hr
              (by simp [PipeAction.err, ho])

theorem pipe_run_inv (p : pipeline) :
    ∀ (acts2 acts1 : List PipeAction) (s1 s : PipeState), PipeInv p acts1 s1 →
      s1.run p acts2 = some s → PipeInv p (acts1 ++ acts2) s := by
  intro acts2
  induction acts2 with
  | nil =>
    intro acts1 s1 s hinv hrun
    simp only [PipeState.run, Option.some.injEq] at hrun
    subst hrun
    simpa using hinv
  | cons a acts2 ih =>
    intro acts1 s1 s hinv hrun
    simp only [PipeState.run] at hrun
    cases hs : s1.step p a with
    | none => simp [hs] at hrun
    | some s2 =>
      simp only [hs] at hrun
      have := ih (acts1 ++ [a]) s2 s (pipe_step_inv p acts1 s1 s2 a hinv hs) hrun
      simpa using this

/-- C6: for every pipeline (the empty one included), every combination of stage outcomes and
every schedule of its tasks: when `Run` has returned, every stage task has returned; it
returns `nil` exactly when every stage returned `nil`; an error it returns is the error of a
stage, the first one recorded (no stage scheduled before it returned an error); the run takes
one step per stage and one to return, it has returned exactly when those are taken, and until
then some task can move. -/
theorem pipeline_run_first_error (p : pipeline) (acts : List PipeAction) (s : PipeState)
    (hrun : p.start.run p acts = some s) :
    (s.result.isSome = true → ∀ b ∈ s.running, b = false)
    ∧ (∀ r, s.result = some r →
        (r = none ↔ ∀ o ∈ p.nodes, o = none)
        ∧ ∀ e, r = some e → ∃ pre i post, acts = pre ++ PipeAction.stage i :: post
            ∧ p.nodes[i]? = some (some e)
            ∧ ∀ j, PipeAction.stage j ∈ pre → ∀ e', p.nodes[j]? ≠ some (some e'))
    ∧ acts.length ≤ p.nodes.length + 1
    ∧ (s.result.isSome = true ↔ acts.length = p.nodes.length + 1)
    ∧ (s.result = none → ∃ a, (s.step p a).isSome = true) := by
  have hinv : PipeInv p acts s := by
    simpa using pipe_run_inv p acts [] p.start s (pipe_init_inv p) hrun
  have hfalse : s.wg = 0 → ∀ b ∈ s.running, b = false := by
    intro hwg b hb
    have := (sum_map_eq_zero_iff (fun b : Bool => if b then 1 else 0) s.running).1
      (by rw [← hinv.wg]; exact hwg) b hb
    cases b <;> simp at this ⊢
  have hsteps := hinv.steps
  refine ⟨?_, ?_, ?_, ?_, ?_⟩
  · intro hsome
    obtain ⟨r, hr⟩ := Option.isSome_iff_exists.1 hsome
    exact hfalse (hinv.res r hr).1
  · intro r hr
    obtain ⟨hwg, hhead⟩ := hinv.res r hr
    rw [hinv.errs] at hhead
    refine ⟨⟨?_, ?_⟩, ?_⟩
    · intro hnone o ho
      rw [hnone] at hhead
      have hnil := List.head?_eq_none_iff.1 hhead.symm
      rw [List.filterMap_eq_nil_iff] at hnil
      obtain ⟨i, hi⟩ := List.getElem?_of_mem ho
      have hlt : i < s.running.length := by
        rw [hinv.len]
        rcases Nat.lt_or_ge i p.nodes.length with h | h
        · exact h
        · rw [List.getElem?_eq_none h] at hi; cases hi
      have hb : s.running[i]? = some false := by
        rw [List.getElem?_eq_getElem hlt, hfalse hwg _ (List.getElem_mem hlt)]
      have := hnil _ (hinv.fin i hb)
      simpa [PipeAction.err, hi] using this
    · intro hall
      have hnil : acts.filterMap (PipeAction.err p) = [] := by
        rw [List.filterMap_eq_nil_iff]
        intro a _
        cases a with
        | ret => rfl
        | stage i =>
          cases hi : p.nodes[i]? with
          | none => simp [PipeAction.err, hi]
          | some o =>
            have := hall o (List.mem_iff_getElem?.2 ⟨i, hi⟩)
            simp [PipeAction.err, hi, this]
      rw [hnil] at hhead
      exact hhead
    · intro e he
      rw [he] at hhead
      obtain ⟨rest, hrest⟩ := List.head?_eq_some_iff.1 hhead.symm
      obtain ⟨pre, a, post, hacts, hpre, ha, _⟩ := List.filterMap_eq_cons_iff.1 hrest
      cases a with
      | ret => simp [PipeAction.err] at ha
      | stage i =>
        refine ⟨pre, i, post, hacts, ?_, ?_⟩
        · cases hi : p.nodes[i]? with
          | none => simp [PipeAction.err, hi] at ha
          | some o => simp [PipeAction.err, hi] at ha; rw [ha]
        · intro j hj e' hje
          have := hpre _ hj
          simp [PipeAction.err, hje] at this
  · split_ifs at hsteps <;> omega
  · constructor
    · intro hsome
      obtain ⟨r, hr⟩ := Option.isSome_iff_exists.1 hsome
      have := (hinv.res r hr).1
      simp only [hsome, if_true] at hsteps
      omega
    · intro hlen
      cases hres : s.result with
      | some r => rfl
      | none =>
        simp only [hres, Option.isSome_none, Bool.false_eq_true, if_false] at hsteps
        omega
  · intro hres
    by_cases hwg : s.wg = 0
    · exact ⟨PipeAction.ret, by simp [PipeState.step, hwg, hres]⟩
    · have hex : ∃ b ∈ s.running, (if b then 1 else 0) ≠ 0 := by
        by_contra hno
        push_neg at hno
        exact hwg (by rw [hinv.wg]; exact (sum_map_eq_zero_iff _ s.running).2 hno)
      obtain ⟨b, hb, hb1⟩ := hex
      obtain ⟨i, hi⟩ := List.getElem?_of_mem hb
      have hbt : b = true := by cases b <;> simp at hb1 ⊢
      subst hbt
      have hlt : i < p.nodes.length := by
        rw [← hinv.len]
        rcases Nat.lt_or_ge i s.running.length with h | h
        · exact h
        · rw [List.getElem?_eq_none h] at hi; cases hi
      refine ⟨PipeAction.stage i, ?_⟩
      have hcap := hinv.cap
      cases ho : p.nodes[i] with
      | none => simp [PipeState.step, hi, List.getElem?_eq_getElem hlt, ho]
      | some err =>
        simp only [PipeState.step, hi, List.getElem?_eq_getElem hlt, ho]
        split_ifs <;> simp

/-- C6 at three stages returning `nil`, "boom" and the cancellation error, finishing in the
order 1, 2, 0: `Run` returns "boom". -/
theorem pipeline_run_first_error_witness :
    ∃ s, ({ nodes := [none, some (Err.user "boom"), some Err.Canceled] } : pipeline).start.run
          { nodes := [none, some (Err.user "boom"), some Err.Canceled] }
          [PipeAction.stage 1, PipeAction.stage 2, PipeAction.stage 0, PipeAction.ret] = some s
      ∧ s.result = some (some (Err.user "boom"))
      ∧ (s.result.isSome = true → ∀ b ∈ s.running, b = false) :=
  ⟨{ running := [false, false, false], errChan := [Err.user "boom", Err.Canceled], errCap := 3,
     wg := 0, cancelled := true, result := some (some (Err.user "boom")) },
   by decide, rfl,
   (pipeline_run_first_error { nodes := [none, some (Err.user "boom"), some Err.Canceled] }
      [PipeAction.stage 1, PipeAction.stage 2, PipeAction.stage 0, PipeAction.ret] _
      (by decide)).1⟩

end Pipelines
